import Mathlib

/-!
Shallow embedding of the cell-network simulation framework
(`Simulation.py`): the reaction-term library, internal reaction graphs
(`InternalModel`), cells, cross-compartment interactions, and the
recursive contribution resolver / derivative assembly of `Simulation`.

Conventions of the embedding:

* Machine floats are modelled by `ℚ`.  `np.nan` has no counterpart in
  `ℚ`; the nan-fill value used by `resolve_contribution` for groups
  lacking the source species is modelled by the constant `nanVal`
  (see its docstring); no claim under audit depends on its value.
* Python runtime errors (AttributeError, NameError, KeyError,
  TypeError) are modelled by `Except Err`.
* The recursive resolver may diverge on cyclic modifier graphs; the
  embedding takes a fuel argument and returns `Err.outOfFuel` when it
  runs out, so every terminating execution of the Python code is
  covered by some fuel value.
* Numpy arrays that the source code mutates in place are modelled by a
  heap of buffers (`Heap`), so that the view/copy distinction of the
  source is preserved; `np.copy` is an allocation of a fresh buffer,
  in-place `*=` is a write to a buffer.
-/

namespace SimF

/-- Python runtime errors that the embedded code can raise. -/
inductive Err
  | attributeError
  | nameError
  | keyError
  | typeError
  | outOfFuel
  deriving DecidableEq, Repr

/-- Tag string for internal-type modifiers (Python string `intern`). -/
def internTag : String := "intern"

/-- Tag string for multiplicative-type modifiers (Python string `mult`). -/
def multTag : String := "mult"

/-- Exponentiation used by the Hill terms.  The Python code computes a
float power `x ** n`; the embedding restricts to natural exponents
(no claim under audit evaluates a Hill term). -/
def ratPowN (x e : ℚ) : ℚ := x ^ e.num.toNat

/-- Parameterised reaction terms of the `InternalModel` term library,
with the parameter fields of the corresponding Python classes
(`ConstantProduction`, `LinearActivation`, `HillActivation`,
`HillInactivation`, `LinearDegradation`, `ParabolicDegradation`). -/
inductive EdgeTerm
  | constProd (C : ℚ)
  | linActiv (C : ℚ)
  | hillActiv (C A n : ℚ)
  | hillInactiv (D C A n : ℚ)
  | linDeg (C : ℚ)
  | parabDeg (C : ℚ)
  deriving DecidableEq, Repr

/-- An edge-term instance: term kind with stored parameters, the
`params_set` flag, and the `is_mod` / `mod_type` attributes common to
all term classes of the source. -/
structure EdgeModel where
  term : EdgeTerm
  params_set : Bool
  is_mod : Bool
  mod_type : Option String
  deriving DecidableEq, Repr

/-- Elementwise `apply` of a term.  Reading an unset parameter
attribute in Python raises AttributeError, hence the `params_set`
guard.  Formulas are the `apply` bodies of the term classes. -/
def EdgeModel.apply (m : EdgeModel) (x : List ℚ) : Except Err (List ℚ) :=
  if !m.params_set then .error .attributeError else
  match m.term with
  | .constProd c => .ok (x.map (fun _ => c))
  | .linActiv c => .ok (x.map (fun v => c * v))
  | .hillActiv c a n =>
    .ok (x.map (fun v => c * ratPowN (v / a) n / (1 + ratPowN (v / a) n)))
  | .hillInactiv dd c a n =>
    .ok (x.map (fun v => dd - c * ratPowN (v / a) n / (1 + ratPowN (v / a) n)))
  | .linDeg c => .ok (x.map (fun v => c * (-v)))
  | .parabDeg c => .ok (x.map (fun v => c * (-(v ^ 2))))

/-- Term-kind identifiers accepted by `InternalModel.get_edge_model`
(an unknown kind string returns `None` in Python and the subsequent
`Edge.__init__` attribute access crashes; the embedding keeps the
kind set closed). -/
inductive ETKind
  | const_prod
  | lin_activ
  | hill_activ
  | hill_inactiv
  deriving DecidableEq, Repr

/-- Factory `InternalModel.get_edge_model`.  Note that
`ConstantProduction.__init__` takes no `is_mod` / `mod_type`
arguments, so a `const_prod` edge is never a modifier, exactly as in
the source.  Missing parameter entries are read with default `0`;
they are unobservable because `params_set` is false when `params` is
`none` (Python would raise on a short list; no claim exercises it). -/
def get_edge_model (ty : ETKind) (is_mod : Bool) (mod_type : Option String)
    (params : Option (List ℚ)) : EdgeModel :=
  let ps := params.getD []
  match ty with
  | .const_prod =>
    { term := .constProd (ps.getD 0 0), params_set := params.isSome
      is_mod := false, mod_type := none }
  | .lin_activ =>
    { term := .linActiv (ps.getD 0 0), params_set := params.isSome
      is_mod := is_mod, mod_type := mod_type }
  | .hill_activ =>
    { term := .hillActiv (ps.getD 0 0) (ps.getD 1 0) (ps.getD 2 0)
      params_set := params.isSome, is_mod := is_mod, mod_type := mod_type }
  | .hill_inactiv =>
    { term := .hillInactiv (ps.getD 0 0) (ps.getD 1 0) (ps.getD 2 0) (ps.getD 3 0)
      params_set := params.isSome, is_mod := is_mod, mod_type := mod_type }

/-- Degradation kinds accepted by `set_node_degradation`. -/
inductive DegKind
  | linear
  | parabolic
  deriving DecidableEq, Repr

/-- Degradation term factory (the `LinearDegradation` /
`ParabolicDegradation` constructors; both have `is_mod = False`). -/
def mkDegModel (k : DegKind) (params : Option (List ℚ)) : EdgeModel :=
  let ps := params.getD []
  { term := match k with
      | .linear => .linDeg (ps.getD 0 0)
      | .parabolic => .parabDeg (ps.getD 0 0)
    params_set := params.isSome, is_mod := false, mod_type := none }

/-- A species node of an internal model (`InternalModel.Node`). -/
structure Node where
  name : String
  degrades : Bool
  degradation : Option EdgeModel
  diffuses : Bool
  is_primary : Bool
  deriving DecidableEq, Repr

/-- Fresh node as built by `Node.__init__` (the unused `diffusion`
field of the source, always `None`, is omitted). -/
def Node.init (name : String) : Node :=
  { name := name, degrades := false, degradation := none
    diffuses := false, is_primary := false }

/-- A directed edge of an internal model (`InternalModel.Edge`); the
source attribute `external` is `False` for every `Edge` and is encoded
by the `Contrib.ie` wrapper below. -/
structure Edge where
  from_node : String
  to_node : Option String
  to_edge : Option Nat
  is_mod : Bool
  mod_type : Option String
  model : EdgeModel
  edge_id : Nat
  deriving DecidableEq, Repr

/-- Constructor `Edge.__init__`: the target is a node name for a plain
reaction and an edge id for a modifier, selected on `model.is_mod`. -/
def Edge.make (f : String) (tgt : String ⊕ Nat) (model : EdgeModel) (eid : Nat) : Edge :=
  { from_node := f
    to_node := if model.is_mod then none else tgt.getLeft?
    to_edge := if model.is_mod then tgt.getRight? else none
    is_mod := model.is_mod
    mod_type := model.mod_type
    model := model
    edge_id := eid }

/-- An internal reaction graph (`InternalModel`).  `node_names` models
the Python name→index dict as an association list whose first match
wins; dict overwrite is modelled by inserting at the front.  The
`num_params` list of the source is never read or written after
`__init__` and is omitted. -/
structure InternalModel where
  nodes : List Node
  edges : List Edge
  node_names : List (String × Nat)
  edge_counter : Nat
  deriving DecidableEq, Repr

/-- Fresh internal model (`InternalModel.__init__`). -/
def InternalModel.empty : InternalModel :=
  { nodes := [], edges := [], node_names := [], edge_counter := 0 }

/-- Association-list lookup modelling a Python dict access
(`None` models the raised KeyError at call sites that propagate it). -/
def lookupA {α : Type} (l : List (String × α)) (k : String) : Option α :=
  (l.find? (fun p => p.1 == k)).map (fun p => p.2)

/-- Lookup `InternalModel.get_node_id`. -/
def InternalModel.get_node_id (m : InternalModel) (name : String) : Option Nat :=
  lookupA m.node_names name

/-- Species count `InternalModel.num_nodes`. -/
def InternalModel.num_nodes (m : InternalModel) : Nat := m.nodes.length

/-- Name list `InternalModel.get_node_names`. -/
def InternalModel.get_node_names (m : InternalModel) : List String :=
  m.nodes.map (fun n => n.name)

/-- Readiness helper `InternalModel.all_params_set`: the source
reduces `and` over the nonempty list and returns `True` on the empty
one, which coincides with `List.all`. -/
def InternalModel.all_params_set (m : InternalModel) : Bool :=
  m.edges.all (fun e => e.model.params_set)

/-- Query `InternalModel.get_contributions`: all edges ending on a
node (a modifier edge has `to_node = None` and never matches). -/
def InternalModel.get_contributions (m : InternalModel) (to_node : String) : List Edge :=
  m.edges.filter (fun e => e.to_node == some to_node)

/-- Query `InternalModel.get_modifiers`: all modifier edges ending on
an edge id. -/
def InternalModel.get_modifiers (m : InternalModel) (to_edge : Nat) : List Edge :=
  m.edges.filter (fun e => e.to_edge == some to_edge && e.is_mod)

/-- Helper for the in-place mutation of a found node performed by
`get_node(...).set_degradation(...)`. -/
def updateNodeAt (nodes : List Node) (i : Nat) (f : Node → Node) : List Node :=
  match nodes.get? i with
  | none => nodes
  | some n => nodes.set i (f n)

/-- Operation `InternalModel.set_node_degradation`.  With kind `none`
the node's degradation is cleared and no edge is created; otherwise a
degradation term is built and also appended as a self-loop edge with a
fresh id.  (An absent node name would raise KeyError in Python; the
embedding leaves the model unchanged — the operation is only invoked
on existing names in this development.) -/
def InternalModel.set_node_degradation (m : InternalModel) (name : String)
    (deg : Option DegKind) (params : Option (List ℚ)) : InternalModel :=
  match deg with
  | none =>
    match m.get_node_id name with
    | none => m
    | some i =>
      let nodes2 := updateNodeAt m.nodes i
        (fun n => { n with degrades := false, degradation := none })
      { m with nodes := nodes2 }
  | some k =>
    let dm := mkDegModel k params
    match m.get_node_id name with
    | none => m
    | some i =>
      let nodes2 := updateNodeAt m.nodes i
        (fun n => { n with degrades := true, degradation := some dm })
      let eid := m.edge_counter
      { m with nodes := nodes2
               edges := m.edges ++ [Edge.make name (Sum.inl name) dm eid]
               edge_counter := eid + 1 }

/-- Operation `InternalModel.add_node`: append the node, bind its name
to its index, then run the degradation helper. -/
def InternalModel.add_node (m : InternalModel) (name : String)
    (deg : Option DegKind) (params : Option (List ℚ)) : InternalModel :=
  let m1 : InternalModel :=
    { m with nodes := m.nodes ++ [Node.init name]
             node_names := (name, m.nodes.length) :: m.node_names }
  m1.set_node_degradation name deg params

/-- Operation `InternalModel.add_edge`: draw a fresh id from
`edge_counter`, build the term via the factory, append the edge, and
return the id. -/
def InternalModel.add_edge (m : InternalModel) (f : String) (tgt : String ⊕ Nat)
    (ty : ETKind) (is_mod : Bool) (mod_type : Option String)
    (params : Option (List ℚ)) : InternalModel × Nat :=
  let eid := m.edge_counter
  let model := get_edge_model ty is_mod mod_type params
  ({ m with edges := m.edges ++ [Edge.make f tgt model eid]
            edge_counter := eid + 1 }, eid)

/-- A compartment (`Cell`). -/
structure Cell where
  position : Option (List ℚ)
  IM : Option InternalModel
  IC : Option (List ℚ)
  num_species : Nat
  cell_id : Option Nat
  deriving DecidableEq, Repr

/-- Fresh cell (`Cell.__init__` without a position argument). -/
def Cell.init : Cell :=
  { position := none, IM := none, IC := none, num_species := 0, cell_id := none }

/-- Operation `Cell.set_IM`. -/
def Cell.set_IM (c : Cell) (im : InternalModel) : Cell :=
  { c with IM := some im, num_species := im.num_nodes }

/-- The assignment loop of `Cell.set_IC`: `self.IC` starts as a zeros
array, entries are written in node order, and a missing dictionary key
raises KeyError leaving the already-written prefix and the zero tail
in place. -/
def fillICGo : List Node → List (String × ℚ) → List ℚ × Option Err
  | [], _ => ([], none)
  | n :: ns, d =>
    match lookupA d n.name with
    | none => (List.replicate (ns.length + 1) 0, some .keyError)
    | some v =>
      let r := fillICGo ns d
      (v :: r.1, r.2)

/-- Operation `Cell.set_IC`: returns the updated cell together with
the Python exception, if one was raised.  Without a model, or with a
count mismatch, the method prints and returns leaving `IC` unchanged;
with a matching count the zeros buffer is stored in `self.IC` before
the assignment loop runs, so a KeyError still leaves the partially
written vector behind. -/
def Cell.set_IC (c : Cell) (d : List (String × ℚ)) : Cell × Option Err :=
  match c.IM with
  | none => (c, none)
  | some im =>
    if d.length ≠ im.num_nodes then (c, none)
    else
      let r := fillICGo im.nodes d
      ({ c with IC := some r.1 }, r.2)


/-- Squared Euclidean distance (the `sqeuclidean` metric of
`scipy.spatial.distance.pdist`) between two position vectors. -/
def sqdist (p q : List ℚ) : ℚ := (List.zipWith (fun a b => (a - b) ^ 2) p q).sum

/-- Precomputed inverse squared distances of `Diffusion.set_dist_pre`:
the pairwise squared distances in square form, with the zero entries
masked before the division and filled with `0`. -/
def distPreOf (cells : List Cell) : List (List ℚ) :=
  let pos := cells.map (fun c => c.position.getD [])
  (List.range cells.length).map (fun i =>
    (List.range cells.length).map (fun j =>
      let d := sqdist (pos.getD i []) (pos.getD j [])
      if d = 0 then 0 else 1 / d))

/-- Interaction term instance (`Simulation.Diffusion` is the only
interaction kind of the source); `cmask` is the negated connection
matrix (`True` removes an entry), `dist_pre` the masked inverse
squared distances. -/
structure IntModel where
  C : ℚ
  params_set : Bool
  is_mod : Bool
  mod_type : Option String
  dist_pre : List (List ℚ)
  cmask : List (List Bool)
  deriving DecidableEq, Repr

/-- Constructor `Simulation.Diffusion.__init__`.  `get_int_model` does
not forward `is_mod` / `mod_type` and the constructor always sets
`is_mod = False`, `mod_type = None`. -/
def mkDiffusion (connections : List (List Bool)) (cells : List Cell)
    (params : Option (List ℚ)) : IntModel :=
  { C := (params.getD []).getD 0 0
    params_set := params.isSome
    is_mod := false
    mod_type := none
    dist_pre := distPreOf cells
    cmask := connections.map (fun row => row.map (fun b => !b)) }

/-- Row `i` of `Simulation.Diffusion.apply` before the final sum: the
evaluating cell's own level is the diagonal entry `row[i]`, every
other column contributes the constant times the inverse squared
distance times the level difference, and the connection mask fills
non-connected entries with `0` after the products are formed. -/
def diffRow (m : IntModel) (row : List ℚ) (i : Nat) : ℚ :=
  let inner := row.getD i 0
  ((List.range m.dist_pre.length).map (fun j =>
    if (m.cmask.getD i []).getD j true then 0
    else m.C * ((m.dist_pre.getD i []).getD j 0) * (row.getD j 0 - inner))).sum

/-- Body of `Simulation.Diffusion.apply`: `x` is the
(group-cells × total-cells) working matrix and `bounds` the group's
cell bounds; row `k` of `x` is evaluated against global column
`bounds.1 + k` (the `np.diag` of the sliced matrix).  Reading the
unset constant raises AttributeError. -/
def IntModel.apply (m : IntModel) (x : List (List ℚ)) (bounds : Nat × Nat) :
    Except Err (List ℚ) :=
  if !m.params_set then .error .attributeError else
  .ok ((List.range x.length).map (fun k => diffRow m (x.getD k []) (bounds.1 + k)))

/-- A cross-compartment interaction (`Simulation.Interaction`); the
source attribute `external` is `True` for every `Interaction` and is
encoded by the `Contrib.ext` wrapper below. -/
structure Interaction where
  from_node : String
  to_node : Option String
  to_edge : Option Nat
  to_IM : Option Nat
  is_mod : Bool
  mod_type : Option String
  model : IntModel
  int_id : Nat
  deriving DecidableEq, Repr

/-- Constructor `Simulation.Interaction.__init__`.  The group id of a
modified internal edge is stored in the attribute `to_IM`; no
attribute named `IM_id` is ever created. -/
def Interaction.make (f : String) (tgt : String ⊕ Nat) (model : IntModel)
    (iid : Nat) (IM_id : Option Nat) : Interaction :=
  { from_node := f
    to_node := if model.is_mod then none else tgt.getLeft?
    to_edge := if model.is_mod then tgt.getRight? else none
    to_IM := if model.is_mod then IM_id else none
    is_mod := model.is_mod
    mod_type := model.mod_type
    model := model
    int_id := iid }

/-- The simulation container (`Simulation.__init__`). -/
structure Simulation where
  cells : List Cell
  IMs : List InternalModel
  IM_cells : List (List Nat)
  IM_bounds : List (Nat × Nat)
  interactions : List Interaction
  int_counter : Nat
  deriving DecidableEq, Repr

/-- Fresh simulation. -/
def Simulation.empty : Simulation :=
  { cells := [], IMs := [], IM_cells := [], IM_bounds := []
    interactions := [], int_counter := 0 }

/-- Count `Simulation.num_cells`. -/
def Simulation.num_cells (s : Simulation) : Nat := s.cells.length

/-- Operation `Simulation.add_cell`. -/
def Simulation.add_cell (s : Simulation) (c : Cell) : Simulation × Nat :=
  let cid := s.cells.length
  ({ s with cells := s.cells ++ [{ c with cell_id := some cid }] }, cid)

/-- Operation `Simulation.add_internal_model`. -/
def Simulation.add_internal_model (s : Simulation) (im : InternalModel) :
    Simulation × Nat :=
  ({ s with IMs := s.IMs ++ [im], IM_cells := s.IM_cells ++ [[]] }, s.IMs.length)

/-- Operation `Simulation.set_internal_model`: assign the model to the
listed cells and extend the group membership list (no duplicate or
overlap checking, as in the source).  An out-of-range cell id would
raise IndexError in Python; the embedding skips it (unused here). -/
def Simulation.set_internal_model (s : Simulation) (cell_id_list : List Nat)
    (IM_id : Nat) : Simulation :=
  let im := s.IMs.getD IM_id InternalModel.empty
  let cells2 := cell_id_list.foldl (fun cs cid =>
    match cs.get? cid with
    | none => cs
    | some c => cs.set cid (c.set_IM im)) s.cells
  { s with cells := cells2
           IM_cells := s.IM_cells.set IM_id ((s.IM_cells.getD IM_id []) ++ cell_id_list) }

/-- Python `reduce` of `and` over a list with no initial value: it
raises TypeError on the empty list and folds otherwise. -/
def pyAllE (l : List Bool) : Except Err Bool :=
  match l with
  | [] => .error .typeError
  | b :: bs => .ok (bs.foldl (fun x y => x && y) b)

/-- Readiness check `Simulation.simulation_ready`: all cells have a
model, all cells have an initial condition, and every internal model
has all edge parameters set.  Interaction parameters are not
inspected by the source. -/
def Simulation.simulation_ready (s : Simulation) : Except Err Bool :=
  match pyAllE (s.cells.map (fun c => c.IM.isSome)) with
  | .error e => .error e
  | .ok a =>
    if !a then .ok false
    else match pyAllE (s.cells.map (fun c => c.IC.isSome)) with
      | .error e => .error e
      | .ok b =>
        if !b then .ok false
        else match pyAllE (s.IMs.map (fun im => im.all_params_set)) with
          | .error e => .error e
          | .ok cc =>
            if !cc then .ok false
            else .ok true

/-- Gate of `Simulation.simulate`: the integrator is invoked exactly
when the readiness check returns `True` (any raised error also
prevents integration). -/
def simulate_reaches_integration (s : Simulation) : Bool :=
  match s.simulation_ready with
  | .ok true => true
  | _ => false

/-- Cumulative loop of `Simulation.set_cell_bounds`. -/
def cellBoundsGo : List Nat → Nat → List (Nat × Nat)
  | [], _ => []
  | n :: rest, low => (low, n + low) :: cellBoundsGo rest (low + n)

/-- Operation `Simulation.set_cell_bounds`: per-group cumulative
cell-count bounds, stored in `IM_bounds`. -/
def Simulation.set_cell_bounds (s : Simulation) : Simulation :=
  { s with IM_bounds := cellBoundsGo (s.IM_cells.map List.length) 0 }

/-- Query `Simulation.get_contributions`: all interactions ending on a
node name (modifier interactions have `to_node = None` and never
match); no group or model takes part in the filter. -/
def Simulation.get_contributions (s : Simulation) (to_node : String) :
    List Interaction :=
  s.interactions.filter (fun i => i.to_node == some to_node)

/-- Query `Simulation.get_modifiers` (source line 460): the
comprehension tests `i.to_edge == to_edge and i.IM_id == IM_id`, but
`Interaction` objects have no attribute `IM_id` (the constructor
stores `to_IM`), so the first interaction whose `to_edge` matches
raises AttributeError; when none matches, the short-circuit skips the
attribute read and the empty list is returned. -/
def Simulation.get_modifiers (s : Simulation) (to_edge : Nat)
    (_IM_id : Option Nat) : Except Err (List Interaction) :=
  if s.interactions.any (fun i => i.to_edge == some to_edge) then
    .error .attributeError
  else .ok []

/-- Heap of numpy buffers.  Buffer `0` holds the canonical flattened
state `y` handed to `deriv`; the `ycurrent` matrices of the source are
views into it, modelled as strided reads of buffer `0`. -/
abbrev Heap := List (List ℚ)

/-- Allocation of a fresh buffer (`np.copy` and term results). -/
def halloc (h : Heap) (b : List ℚ) : Heap × Nat := (h ++ [b], h.length)

/-- Read of a buffer. -/
def hread (h : Heap) (i : Nat) : List ℚ := h.getD i []

/-- In-place overwrite of a buffer (numpy `*=`). -/
def hwrite (h : Heap) (i : Nat) (b : List ℚ) : Heap := h.set i b

/-- Elementwise product of equal-length vectors (numpy `*`). -/
def mulVec (a b : List ℚ) : List ℚ := List.zipWith (fun x y => x * y) a b

/-- Group cell count `len(self.IM_cells[i])`. -/
def IM_ncellsAt (s : Simulation) (i : Nat) : Nat := (s.IM_cells.getD i []).length

/-- Group species count `self.IMs[i].num_nodes()`. -/
def IM_nspeciesAt (s : Simulation) (i : Nat) : Nat :=
  (s.IMs.getD i InternalModel.empty).num_nodes

/-- Per-group flattened block sizes `[a*b for (a,b) in IM_dims]` of
`deriv`. -/
def IM_prods (s : Simulation) : List Nat :=
  (List.range s.IMs.length).map (fun i => IM_ncellsAt s i * IM_nspeciesAt s i)

/-- In-place cumulative-sum loop of `deriv`
(`bounds[i] = bounds[i] + bounds[i-1]`). -/
def cumsumGo : List Nat → Nat → List Nat
  | [], _ => []
  | x :: xs, acc => (x + acc) :: cumsumGo xs (x + acc)

/-- Flat-state bounds computed at the top of `deriv`: the list
`[0] + block sizes`, then the cumulative-sum loop. -/
def derivBoundsList (s : Simulation) : List Nat := 0 :: cumsumGo (IM_prods s) 0

/-- Entry `i` of the flat-state bounds. -/
def dBoundAt (s : Simulation) (i : Nat) : Nat := (derivBoundsList s).getD i 0

/-- Column read `ycurrent[g][:, col]`: `ycurrent[g]` is the view
`y[bounds[g] : bounds[g+1]]` reshaped to `(ncells, nspecies)` in C
order, so cell `c` of the column sits at flat offset
`bounds[g] + c * nspecies + col`. -/
def ycolumn (s : Simulation) (y : List ℚ) (g col : Nat) : List ℚ :=
  (List.range (IM_ncellsAt s g)).map (fun c =>
    y.getD (dBoundAt s g + c * IM_nspeciesAt s g + col) 0)

/-- Stand-in for the `np.nan` fill of `resolve_contribution` (groups
whose model lacks the source species).  `ℚ` has no NaN; none of the
claims under audit is sensitive to this value (they concern layout,
bounds, error propagation, buffer ownership, or matrices given
directly to the diffusion term). -/
def nanVal : ℚ := 0

/-- A contribution handed to `resolve_contribution`: an internal
`Edge` (`external = False`) or an `Interaction` (`external = True`). -/
inductive Contrib
  | ie (e : Edge)
  | ext (i : Interaction)
  deriving DecidableEq, Repr

/-- Modifier-type tag of a contribution. -/
def Contrib.mod_type : Contrib → Option String
  | .ie e => e.mod_type
  | .ext i => i.mod_type

/-- Gather loop of the external branch: per group, the source species
column, or a nan-fill of the group's cell count when the model lacks
the species; `np.append` concatenates the pieces. -/
def buildXdata (s : Simulation) (y : List ℚ) (from_node : String) : List ℚ :=
  ((List.range s.IMs.length).map (fun i =>
    match (s.IMs.getD i InternalModel.empty).get_node_id from_node with
    | some fid => ycolumn s y i fid
    | none => List.replicate (IM_ncellsAt s i) nanVal)).flatten

/-- Internal-type modifier loop of the external branch (source lines
491-495): the body calls the bare name `resolve_contribution`, which
is unbound at module scope, so reaching an internal-type modifier
raises NameError before anything is scaled. -/
def extInternLoop : List Interaction → List (List ℚ) → Except Err (List (List ℚ))
  | [], x => .ok x
  | i :: rest, x =>
    if i.mod_type == some internTag then .error .nameError
    else extInternLoop rest x

/-- Fold of `xcontrib *= self.resolve_contribution(mod, ...)` over the
internal-type modifiers of the internal branch; `xid` names the buffer
holding `xcontrib`, which is overwritten in place. -/
def internModLoop (res : Contrib → Heap → Except Err (Heap × List ℚ)) :
    List Contrib → Nat → Heap → Except Err Heap
  | [], _, h => .ok h
  | m :: ms, xid, h =>
    if m.mod_type == some internTag then
      match res m h with
      | .error e => .error e
      | .ok p =>
        internModLoop res ms xid (hwrite p.1 xid (mulVec (hread p.1 xid) p.2))
    else internModLoop res ms xid h

/-- Fold of `ycontrib *= self.resolve_contribution(mod, ...)` over the
multiplicative-type modifiers; the evaluated result is a fresh array
and is threaded as a value. -/
def multModLoop (res : Contrib → Heap → Except Err (Heap × List ℚ)) :
    List Contrib → Heap → List ℚ → Except Err (Heap × List ℚ)
  | [], h, yc => .ok (h, yc)
  | m :: ms, h, yc =>
    if m.mod_type == some multTag then
      match res m h with
      | .error e => .error e
      | .ok p => multModLoop res ms p.1 (mulVec yc p.2)
    else multModLoop res ms h yc

/-- Recursive resolver `Simulation.resolve_contribution`, with fuel.
External branch: look up the (external) modifiers of the interaction,
gather the tiled working matrix, run the (crashing) internal-type
loop, evaluate the interaction term on the group's cell bounds, then
run the multiplicative loop.  Internal branch: look up same-model and
external modifiers, copy the source species column into a fresh
buffer (`np.copy`, source line 515), scale it in place by the
internal-type modifiers, evaluate the edge term, then run the
multiplicative loop.  Node lookup failure models the Python KeyError. -/
def resolveC : Nat → Simulation → Contrib → Nat → Heap → Except Err (Heap × List ℚ)
  | 0, _, _, _, _ => .error .outOfFuel
  | Nat.succ fuel, s, c, IM_id, h =>
    match c with
    | .ext i =>
      match s.get_modifiers i.int_id none with
      | .error e => .error e
      | .ok ext_mods =>
        let xdata := buildXdata s (hread h 0) i.from_node
        let xcontrib := List.replicate (IM_ncellsAt s IM_id) xdata
        match extInternLoop ext_mods xcontrib with
        | .error e => .error e
        | .ok xcontrib2 =>
          match i.model.apply xcontrib2 (s.IM_bounds.getD IM_id (0, 0)) with
          | .error e => .error e
          | .ok yc =>
            multModLoop (fun c2 h2 => resolveC fuel s c2 IM_id h2)
              (ext_mods.map Contrib.ext) h yc
    | .ie e =>
      let int_mods := (s.IMs.getD IM_id InternalModel.empty).get_modifiers e.edge_id
      match s.get_modifiers e.edge_id (some IM_id) with
      | .error er => .error er
      | .ok ext_mods =>
        match (s.IMs.getD IM_id InternalModel.empty).get_node_id e.from_node with
        | none => .error .keyError
        | some fid =>
          let col := ycolumn s (hread h 0) IM_id fid
          let p := halloc h col
          let mods := int_mods.map Contrib.ie ++ ext_mods.map Contrib.ext
          match internModLoop (fun c2 hh => resolveC fuel s c2 IM_id hh) mods p.2 p.1 with
          | .error er => .error er
          | .ok h2 =>
            match e.model.apply (hread h2 p.2) with
            | .error er => .error er
            | .ok yc =>
              multModLoop (fun c2 hh => resolveC fuel s c2 IM_id hh) mods h2 yc

/-- Accumulator matrix of one group (`np.zeros(IM_dims[i])`). -/
def zerosMat (nc ns : Nat) : List (List ℚ) :=
  List.replicate nc (List.replicate ns 0)

/-- Column accumulation `yprime[g][:, j] += v`. -/
def addToCol (M : List (List ℚ)) (j : Nat) (v : List ℚ) : List (List ℚ) :=
  List.zipWith (fun row vc => row.set j (row.getD j 0 + vc)) M v

/-- Name of species `j` of group `g` (`cnodes[j]` in `deriv`). -/
def nodeNameAt (s : Simulation) (g j : Nat) : String :=
  ((s.IMs.getD g InternalModel.empty).nodes.getD j (Node.init (String.mk []))).name

/-- Contributions gathered by `deriv` for species `j` of group `g`:
internal edges ending on the node, then every external interaction
ending on the node name — matched purely by name, with no model
scoping. -/
def contribsFor (s : Simulation) (g j : Nat) : List Contrib :=
  ((s.IMs.getD g InternalModel.empty).get_contributions (nodeNameAt s g j)).map Contrib.ie
    ++ (s.get_contributions (nodeNameAt s g j)).map Contrib.ext

/-- Accumulation of all contributions into column `j` of a group
accumulator. -/
def contribLoop (fuel : Nat) (s : Simulation) (g j : Nat) :
    List Contrib → Heap → List (List ℚ) → Except Err (Heap × List (List ℚ))
  | [], h, M => .ok (h, M)
  | c :: cs, h, M =>
    match resolveC fuel s c g h with
    | .error e => .error e
    | .ok p => contribLoop fuel s g j cs p.1 (addToCol M j p.2)

/-- Loop of `deriv` over the species of one group. -/
def speciesLoop (fuel : Nat) (s : Simulation) (g : Nat) :
    List Nat → Heap → List (List ℚ) → Except Err (Heap × List (List ℚ))
  | [], h, M => .ok (h, M)
  | j :: js, h, M =>
    match contribLoop fuel s g j (contribsFor s g j) h M with
    | .error e => .error e
    | .ok p => speciesLoop fuel s g js p.1 p.2

/-- Loop of `deriv` over the groups, producing one accumulator matrix
per group. -/
def groupLoop (fuel : Nat) (s : Simulation) :
    List Nat → Heap → Except Err (Heap × List (List (List ℚ)))
  | [], h => .ok (h, [])
  | g :: gs, h =>
    match speciesLoop fuel s g (List.range (IM_nspeciesAt s g)) h
        (zerosMat (IM_ncellsAt s g) (IM_nspeciesAt s g)) with
    | .error e => .error e
    | .ok p =>
      match groupLoop fuel s gs p.1 with
      | .error e => .error e
      | .ok q => .ok (q.1, p.2 :: q.2)

/-- Row-major flatten of a matrix (`np.ndarray.flatten`, C order). -/
def matFlatten (M : List (List ℚ)) : List ℚ := M.flatten

/-- Python `reduce(np.append, ...)` with no initial value: TypeError
on the empty list, concatenation otherwise. -/
def reduceAppend (l : List (List ℚ)) : Except Err (List ℚ) :=
  match l with
  | [] => .error .typeError
  | x :: xs => .ok (xs.foldl (fun a b => a ++ b) x)

/-- Derivative callback `Simulation.deriv`, over a heap whose buffer 0
holds the canonical flattened state `y`; returns the final heap and
the flattened derivative. -/
def derivH (fuel : Nat) (s : Simulation) (y : List ℚ) :
    Except Err (Heap × List ℚ) :=
  match groupLoop fuel s (List.range s.IMs.length) [y] with
  | .error e => .error e
  | .ok p =>
    match reduceAppend (p.2.map matFlatten) with
    | .error e => .error e
    | .ok d => .ok (p.1, d)

/-- Initial-state matrices of `Simulation.simulate`: one
(group-cells × species) matrix per group, rows read from the cells'
stored initial conditions in group-membership order. -/
def yinitialMats (s : Simulation) : List (List (List ℚ)) :=
  (List.range s.IMs.length).map (fun g =>
    (s.IM_cells.getD g []).map (fun cid =>
      (s.cells.getD cid Cell.init).IC.getD []))

/-- Flattened initial state `y0` of `Simulation.simulate`: row-major
flatten of each group matrix, concatenated with
`reduce(np.append, ...)`. -/
def simulate_y0 (s : Simulation) : Except Err (List ℚ) :=
  reduceAppend ((yinitialMats s).map matFlatten)


/-! Specification-shaped definitions.  Each follows the words of the
specification and is compared against the corresponding definition
translated from the source. -/

/-- Specification-shaped state layout: the concatenation over groups
(in registration order) of the concatenation over the group's cells
(in membership order) of the per-cell species vectors. -/
def specY0 (s : Simulation) : List ℚ :=
  ((List.range s.IMs.length).map (fun g =>
    ((s.IM_cells.getD g []).map (fun cid =>
      (s.cells.getD cid Cell.init).IC.getD [])).flatten)).flatten

/-- Specification formula for one output entry of the diffusion term:
`C * Σ_j mask(i,j) * (1/dist(i,j)^2) * (x_j - x_i)`, where a
non-connected pair, a compartment paired with itself, and any pair at
squared distance zero contribute exactly `0`, and the division is
never taken at a zero distance. -/
def diffusionSpecRow (C : ℚ) (pos : List (List ℚ)) (connections : List (List Bool))
    (row : List ℚ) (i : Nat) : ℚ :=
  C * ((List.range pos.length).map (fun j =>
    if (connections.getD i []).getD j false ∧
        sqdist (pos.getD i []) (pos.getD j []) ≠ 0 then
      (1 / sqdist (pos.getD i []) (pos.getD j [])) * (row.getD j 0 - row.getD i 0)
    else 0)).sum

/-- Alignment of the stored initial conditions with the group models:
every cell of every group stores an initial-condition vector of the
group's species count (guaranteed by `set_IC` under consistent
assignment; `np.empty` row assignment would raise otherwise). -/
def ICsAligned (s : Simulation) : Prop :=
  ∀ g, g < s.IMs.length → ∀ cid ∈ s.IM_cells.getD g [],
    ((s.cells.getD cid Cell.init).IC.getD []).length = IM_nspeciesAt s g

/-- Alignment is checkable by evaluation. -/
instance instDecidableICsAligned (s : Simulation) : Decidable (ICsAligned s) :=
  decidable_of_iff (∀ g, g < s.IMs.length → ∀ cid ∈ s.IM_cells.getD g [],
    ((s.cells.getD cid Cell.init).IC.getD []).length = IM_nspeciesAt s g) Iff.rfl

/-- Heap extension: the final heap keeps every buffer of the initial
heap intact and may only have grown. -/
def HeapExt (h h2 : Heap) : Prop :=
  h.length ≤ h2.length ∧ ∀ i, i < h.length → hread h2 i = hread h i

/-- Internal models reachable through the construction API
(`__init__`, `add_node`, `add_edge`, `set_node_degradation`). -/
inductive IMBuilt : InternalModel → Prop
  | init : IMBuilt InternalModel.empty
  | addNode (m : InternalModel) (name : String) (deg : Option DegKind)
      (ps : Option (List ℚ)) : IMBuilt m → IMBuilt (m.add_node name deg ps)
  | addEdge (m : InternalModel) (f : String) (tgt : String ⊕ Nat) (ty : ETKind)
      (b : Bool) (mt : Option String) (ps : Option (List ℚ)) :
      IMBuilt m → IMBuilt (m.add_edge f tgt ty b mt ps).1
  | setDeg (m : InternalModel) (name : String) (deg : Option DegKind)
      (ps : Option (List ℚ)) : IMBuilt m → IMBuilt (m.set_node_degradation name deg ps)

/-! Concrete configurations used as witnesses and counterexamples. -/

/-- Node name `a`. -/
def aName : String := "a"

/-- Node name `b`. -/
def bName : String := "b"

/-- Key `c`, used as a wrong initial-condition key. -/
def cName : String := "c"

/-- Default edge value for reading a list of edges. -/
def edgeD : Edge := Edge.make aName (Sum.inl aName) (mkDegModel .linear none) 0

/-- One-species model whose node degrades linearly with rate 1. -/
def imA : InternalModel := InternalModel.empty.add_node aName (some .linear) (some [1])

/-- A cell running `imA` with initial condition 2. -/
def cell9 : Cell := { (Cell.init.set_IM imA) with IC := some [2] }

/-- One-group simulation: one cell, one species, linear degradation. -/
def sim9 : Simulation :=
  { cells := [cell9], IMs := [imA], IM_cells := [[0]], IM_bounds := [(0, 1)]
    interactions := [], int_counter := 0 }

/-- One-species model with no edges. -/
def imD : InternalModel := InternalModel.empty.add_node aName none none

/-- A cell running `imD` at 1-dimensional position `p`. -/
def cellP (p : ℚ) : Cell :=
  { (Cell.init.set_IM imD) with position := some [p], IC := some [0] }

/-- Two cells at positions 0 and 1. -/
def cellsD : List Cell := [cellP 0, cellP 1]

/-- Diffusion term over `cellsD` with rate 1 and symmetric adjacency. -/
def diffM : IntModel := mkDiffusion [[false, true], [true, false]] cellsD (some [1])

/-- Plain (non-modifier) diffusion interaction into node `a`. -/
def interD : Interaction := Interaction.make aName (Sum.inl aName) diffM 0 none

/-- Two-cell diffusion simulation (one group). -/
def simD : Simulation :=
  { cells := cellsD, IMs := [imD], IM_cells := [[0, 1]], IM_bounds := [(0, 2)]
    interactions := [interD], int_counter := 1 }

/-- Modifier-type interaction term tagged internal (the `Interaction`
constructor accepts any term with `is_mod` set; the data model admits
it even though `get_int_model` never forwards the flag). -/
def modIntern : IntModel :=
  { C := 1, params_set := true, is_mod := true, mod_type := some internTag
    dist_pre := [], cmask := [] }

/-- Modifier-type interaction term tagged multiplicative. -/
def modMult : IntModel :=
  { C := 1, params_set := true, is_mod := true, mod_type := some multTag
    dist_pre := [], cmask := [] }

/-- Internal-type modifier interaction targeting interaction id 0. -/
def interMod3 : Interaction := Interaction.make aName (Sum.inr 0) modIntern 1 none

/-- Diffusion simulation extended with an internal-type modifier of
the diffusion interaction. -/
def sim3 : Simulation := { simD with interactions := [interD, interMod3] }

/-- Multiplicative-type modifier interaction targeting interaction 0. -/
def interMod6 : Interaction := Interaction.make aName (Sum.inr 0) modMult 1 none

/-- Diffusion simulation extended with a multiplicative-type modifier
of the diffusion interaction. -/
def sim6 : Simulation := { simD with interactions := [interD, interMod6] }

/-- Two-species model with a linear edge `a → b` (edge id 0). -/
def imE : InternalModel :=
  (((InternalModel.empty.add_node aName none none).add_node bName none none).add_edge
    aName (Sum.inl bName) .lin_activ false none (some [1])).1

/-- External internal-type modifier interaction targeting internal
edge 0 of group 0. -/
def interMod4 : Interaction := Interaction.make aName (Sum.inr 0) modIntern 0 (some 0)

/-- A cell running `imE`. -/
def cell4 : Cell := { (Cell.init.set_IM imE) with IC := some [1, 1] }

/-- Simulation whose single internal edge is targeted by an external
internal-type modifier interaction. -/
def sim4 : Simulation :=
  { cells := [cell4], IMs := [imE], IM_cells := [[0]], IM_bounds := [(0, 1)]
    interactions := [interMod4], int_counter := 1 }

/-- Diffusion term with parameters never set. -/
def unsetDiff : IntModel := mkDiffusion [] [] none

/-- Non-modifier interaction whose term has unset parameters. -/
def interUnset : Interaction := Interaction.make aName (Sum.inl aName) unsetDiff 0 none

/-- Fully ready simulation except for the unset interaction
parameters. -/
def sim2 : Simulation :=
  { cells := [cell9], IMs := [imA], IM_cells := [[0]], IM_bounds := []
    interactions := [interUnset], int_counter := 1 }

/-- Two-species model (`a`, `b`) with no edges. -/
def im7 : InternalModel :=
  (InternalModel.empty.add_node aName none none).add_node bName none none

/-- A cell running `im7` with no initial condition yet. -/
def cell7 : Cell := Cell.init.set_IM im7

/-- Initial-condition mapping with the right count but a wrong key
(`c` instead of `b`). -/
def ic7 : List (String × ℚ) := [(aName, 1), (cName, 5)]

/-- Valid initial-condition mapping for `im7`, keys out of node
order. -/
def ic7good : List (String × ℚ) := [(bName, 7), (aName, 1)]

/-- Simulation holding the cell produced by the failed `set_IC`
call. -/
def sim7 : Simulation :=
  { cells := [(cell7.set_IC ic7).1], IMs := [im7], IM_cells := [[0]]
    IM_bounds := [], interactions := [], int_counter := 0 }

/-- First model of the edge-id counterexample: one edge with id 0. -/
def im8a : InternalModel × Nat :=
  (InternalModel.empty.add_node aName none none).add_edge aName (Sum.inl aName)
    .lin_activ false none (some [1])

/-- Second model of the edge-id counterexample: a distinct edge, also
with id 0. -/
def im8b : InternalModel × Nat :=
  (InternalModel.empty.add_node bName none none).add_edge bName (Sum.inl bName)
    .lin_activ false none (some [2])

/-- Simulation with both models registered. -/
def sim8 : Simulation := { Simulation.empty with IMs := [im8a.1, im8b.1] }

/-- Model built through the API for the witness of the amended edge-id
claim: a degradation edge (id 0) and a plain edge (id 1). -/
def im8w : InternalModel :=
  ((InternalModel.empty.add_node aName (some .linear) (some [1])).add_edge
    aName (Sum.inl aName) .lin_activ false none (some [2])).1

/-- Second group model with its own node also named `a`. -/
def imD2 : InternalModel := InternalModel.empty.add_node aName none none

/-- Two-group simulation: both groups' models contain a node named
`a`, plus one diffusion interaction into `a`. -/
def sim10 : Simulation :=
  { cells := [cellP 0, cellP 1], IMs := [imD, imD2], IM_cells := [[0], [1]]
    IM_bounds := [(0, 1), (1, 2)], interactions := [interD], int_counter := 1 }

/-- A cell running the two-species model `im7` with a stored initial
condition. -/
def cell1 : Cell := { (Cell.init.set_IM im7) with IC := some [5, 7] }

/-- One-group, one-cell, two-species simulation for the bounds
counterexample, with the cell bounds already computed by
`set_cell_bounds`. -/
def sim1c : Simulation :=
  Simulation.set_cell_bounds
    { cells := [cell1], IMs := [im7], IM_cells := [[0]], IM_bounds := []
      interactions := [], int_counter := 0 }

/-- Two-group simulation for the layout witness: group 0 has two
cells of two species, group 1 has one cell of one species. -/
def sim1w : Simulation :=
  { cells := [{ (Cell.init.set_IM im7) with IC := some [1, 2] },
              { (Cell.init.set_IM im7) with IC := some [3, 4] },
              { (Cell.init.set_IM imD) with IC := some [9] }]
    IMs := [im7, imD], IM_cells := [[0, 1], [2]], IM_bounds := []
    interactions := [], int_counter := 0 }


/-- Behavioural contract of a resolver step used by the loop lemmas:
a successful resolution extends the heap and returns a vector of the
group's cell count. -/
def ResOK (res : Contrib → Heap → Except Err (Heap × List ℚ)) (nc : Nat) : Prop :=
  ∀ c h h2 v, res c h = .ok (h2, v) → HeapExt h h2 ∧ v.length = nc

/-! Theorems. -/

/-- Helper: the fold of conjunction equals `List.all` on the tail. -/
theorem foldl_and_eq (b : Bool) (bs : List Bool) :
    bs.foldl (fun x y => x && y) b = (b && bs.all (fun x => x)) := by
  induction bs generalizing b with
  | nil => simp
  | cons x xs ih => simp [List.foldl_cons, ih, Bool.and_assoc]

/-- Helper: Python reduce-and on the empty list raises TypeError. -/
theorem pyAllE_nil : pyAllE [] = .error .typeError := rfl

/-- Helper: Python reduce-and on a nonempty list is `List.all`. -/
theorem pyAllE_cons (b : Bool) (bs : List Bool) :
    pyAllE (b :: bs) = .ok ((b :: bs).all (fun x => x)) := by
  simp [pyAllE, foldl_and_eq]

/-- Helper: the readiness check returns `True` exactly when there is
at least one cell and at least one model, every cell has a model and
an initial condition, and every model has all edge parameters set. -/
theorem ready_ok_true_iff (s : Simulation) :
    s.simulation_ready = .ok true ↔
      (s.cells ≠ [] ∧ (∀ c ∈ s.cells, c.IM.isSome = true ∧ c.IC.isSome = true) ∧
        s.IMs ≠ [] ∧ ∀ im ∈ s.IMs, im.all_params_set = true) := by
  rcases hc : s.cells with _ | ⟨c, cs⟩
  · simp [Simulation.simulation_ready, hc, pyAllE]
  · rcases him : s.IMs with _ | ⟨m, ms⟩
    · simp only [Simulation.simulation_ready, hc, him, List.map_cons, List.map_nil,
        pyAllE_cons, pyAllE_nil]
      by_cases h1 : (c.IM.isSome :: cs.map (fun x => x.IM.isSome)).all (fun x => x)
      · by_cases h2 : (c.IC.isSome :: cs.map (fun x => x.IC.isSome)).all (fun x => x)
        · simp [h1, h2]
        · simp [h1, h2]
      · simp [h1]
    · simp only [Simulation.simulation_ready, hc, him, List.map_cons,
        pyAllE_cons]
      by_cases h1 : (c.IM.isSome :: cs.map (fun x => x.IM.isSome)).all (fun x => x)
      · by_cases h2 : (c.IC.isSome :: cs.map (fun x => x.IC.isSome)).all (fun x => x)
        · by_cases h3 : (m.all_params_set :: ms.map (fun x => x.all_params_set)).all
              (fun x => x)
          · simp only [h1, h2, h3, Bool.not_true, Bool.false_eq_true, if_false]
            constructor
            · intro _
              refine ⟨by simp, ?_, by simp, ?_⟩
              · intro x hx
                simp only [List.all_eq_true, List.mem_cons, List.mem_map] at h1 h2
                rcases List.mem_cons.mp hx with rfl | hx2
                · exact ⟨h1 (x.IM.isSome) (Or.inl rfl), h2 (x.IC.isSome) (Or.inl rfl)⟩
                · exact ⟨h1 (x.IM.isSome) (Or.inr ⟨x, hx2, rfl⟩),
                    h2 (x.IC.isSome) (Or.inr ⟨x, hx2, rfl⟩)⟩
              · intro x hx
                simp only [List.all_eq_true, List.mem_cons, List.mem_map] at h3
                rcases List.mem_cons.mp hx with rfl | hx2
                · exact h3 (x.all_params_set) (Or.inl rfl)
                · exact h3 (x.all_params_set) (Or.inr ⟨x, hx2, rfl⟩)
            · intro _; trivial
          · simp only [h1, h2, h3, Bool.not_true, Bool.false_eq_true, if_false,
              Bool.not_false, if_true]
            constructor
            · intro hcontra; simp at hcontra
            · rintro ⟨-, -, -, hall⟩
              exfalso; apply h3
              simp only [List.all_eq_true, List.mem_cons, List.mem_map]
              rintro x (rfl | ⟨y, hy, rfl⟩)
              · exact hall m (List.mem_cons_self m ms)
              · exact hall y (List.mem_cons_of_mem m hy)
        · simp only [h1, h2, Bool.not_true, Bool.false_eq_true, if_false,
            Bool.not_false, if_true]
          constructor
          · intro hcontra; simp at hcontra
          · rintro ⟨-, hcells, -, -⟩
            exfalso; apply h2
            simp only [List.all_eq_true, List.mem_cons, List.mem_map]
            rintro x (rfl | ⟨y, hy, rfl⟩)
            · exact (hcells c (List.mem_cons_self c cs)).2
            · exact (hcells y (List.mem_cons_of_mem c hy)).2
      · simp only [h1, Bool.not_false, if_true]
        constructor
        · intro hcontra; simp at hcontra
        · rintro ⟨-, hcells, -, -⟩
          exfalso; apply h1
          simp only [List.all_eq_true, List.mem_cons, List.mem_map]
          rintro x (rfl | ⟨y, hy, rfl⟩)
          · exact (hcells c (List.mem_cons_self c cs)).1
          · exact (hcells y (List.mem_cons_of_mem c hy)).1

/-- Helper: the simulate gate opens exactly when the readiness check
returns `True`. -/
theorem sri_iff (s : Simulation) :
    simulate_reaches_integration s = true ↔ s.simulation_ready = .ok true := by
  unfold simulate_reaches_integration
  rcases h : s.simulation_ready with e | b
  · simp
  · cases b <;> simp

/-- Claim C2, amended: `simulate` proceeds to integration exactly when
there is at least one cell and at least one registered model, every
cell has an assigned model and an initial condition, and every
model's every edge has its parameters set; interaction term
parameters are not checked. -/
theorem c2_ready_amended (s : Simulation) :
    simulate_reaches_integration s = true ↔
      (s.cells ≠ [] ∧ (∀ c ∈ s.cells, c.IM.isSome = true ∧ c.IC.isSome = true) ∧
        s.IMs ≠ [] ∧ ∀ im ∈ s.IMs, im.all_params_set = true) :=
  (sri_iff s).trans (ready_ok_true_iff s)


/-- Claim C2, counterexample: the readiness check accepts (and
`simulate` proceeds past the gate of) a simulation in which an
interaction's term has unset parameters, contradicting the claim that
readiness requires every interaction's term parameters to be set. -/
theorem c2_counterexample :
    simulate_reaches_integration sim2 = true ∧
      sim2.interactions.all (fun i => i.model.params_set) = false :=
  ⟨rfl, rfl⟩

/-- Claim C3 (code bug): resolving an external contribution that has
an internal-type modifier interaction targeting it does not row-scale
the tiled working matrix; `Simulation.get_modifiers` raises
AttributeError as soon as the modifier's `to_edge` matches, because it
reads the non-existent attribute `IM_id` (stored as `to_IM`). -/
theorem c3_ext_intern_mod_bug :
    interMod3.is_mod = true ∧ interMod3.mod_type = some internTag ∧
      interMod3.to_edge = some interD.int_id ∧
      resolveC 5 sim3 (Contrib.ext interD) 0 [[1, 0]] = .error .attributeError :=
  ⟨rfl, rfl, rfl, rfl⟩

/-- Claim C4 (code bug): resolving an internal edge targeted by an
external internal-type modifier interaction registered with the
group's id does not fold the modifier into the input;
`Simulation.get_modifiers` raises AttributeError on the matching
modifier (attribute `IM_id` does not exist, it is stored as `to_IM`). -/
theorem c4_edge_ext_mod_bug :
    interMod4.is_mod = true ∧ interMod4.mod_type = some internTag ∧
      interMod4.to_edge = some (imE.edges.getD 0 edgeD).edge_id ∧
      interMod4.to_IM = some 0 ∧
      resolveC 5 sim4 (Contrib.ie (imE.edges.getD 0 edgeD)) 0 [[1, 1]] =
        .error .attributeError :=
  ⟨rfl, rfl, rfl, rfl, rfl⟩

/-- Claim C6 (code bug): the external resolver branch cannot apply its
modifier ordering at all — with a multiplicative-type modifier
present, the initial `Simulation.get_modifiers` lookup raises
AttributeError (attribute `IM_id` vs `to_IM`), so the output is never
scaled; the ordering rule therefore fails to hold in both branches. -/
theorem c6_mult_mod_branch_bug :
    interMod6.is_mod = true ∧ interMod6.mod_type = some multTag ∧
      interMod6.to_edge = some interD.int_id ∧
      resolveC 5 sim6 (Contrib.ext interD) 0 [[1, 0]] = .error .attributeError :=
  ⟨rfl, rfl, rfl, rfl⟩

/-- Claim C7, counterexample: an initial-condition mapping with the
right count but a wrong key raises KeyError, yet stores the partially
written vector, so the readiness check afterwards passes — it does
not fail as the claim states. -/
theorem c7_counterexample :
    ic7.length = im7.num_nodes ∧ lookupA ic7 bName = none ∧
      (cell7.set_IC ic7).2 = some Err.keyError ∧
      (cell7.set_IC ic7).1.IC = some [1, 0] ∧
      sim7.simulation_ready = .ok true :=
  ⟨rfl, rfl, rfl, rfl, rfl⟩

/-- Claim C8, counterexample: two distinct edges in two internal
models registered with one simulation carry the same edge id 0 — each
model draws ids from its own counter, so edge ids are not
simulation-wide unique. -/
theorem c8_counterexample :
    im8a.2 = im8b.2 ∧
      (sim8.IMs.getD 0 InternalModel.empty).edges.getD 0 edgeD ≠
        (sim8.IMs.getD 1 InternalModel.empty).edges.getD 0 edgeD ∧
      ((sim8.IMs.getD 0 InternalModel.empty).edges.getD 0 edgeD).edge_id =
        ((sim8.IMs.getD 1 InternalModel.empty).edges.getD 0 edgeD).edge_id :=
  ⟨rfl, by decide, rfl⟩

/-- Claim C1, counterexample: the per-group bounds computed before
integration by `set_cell_bounds` are cell-index bounds; with one
group of one cell and two species they cover a total length 1 while
the flattened state vector has length `group size × species count`
= 2, so these bounds do not partition the flattened vector. -/
theorem c1_counterexample :
    sim1c.IM_bounds = [(0, 1)] ∧
      simulate_y0 sim1c = .ok [5, 7] ∧
      (sim1c.IM_bounds.map (fun b => b.2 - b.1)).sum ≠ (IM_prods sim1c).sum :=
  ⟨rfl, rfl, by decide⟩


/-- Helper: the assignment loop succeeds and stores the values in
node order when every node name is a key of the mapping. -/
theorem fillICGo_found (nodes : List Node) (d : List (String × ℚ))
    (h : ∀ n ∈ nodes, (lookupA d n.name).isSome = true) :
    fillICGo nodes d = (nodes.map (fun n => (lookupA d n.name).getD 0), none) := by
  induction nodes with
  | nil => rfl
  | cons n ns ih =>
    have hn := h n (List.mem_cons_self n ns)
    rcases ho : lookupA d n.name with _ | v
    · rw [ho] at hn; simp at hn
    · simp [fillICGo, ho, ih (fun x hx => h x (List.mem_cons_of_mem _ hx))]

/-- Helper: the assignment loop raises KeyError when some node name is
missing from the mapping. -/
theorem fillICGo_missing (nodes : List Node) (d : List (String × ℚ))
    (h : ∃ n ∈ nodes, lookupA d n.name = none) :
    (fillICGo nodes d).2 = some Err.keyError := by
  induction nodes with
  | nil => simp at h
  | cons n ns ih =>
    rcases ho : lookupA d n.name with _ | v
    · simp [fillICGo, ho]
    · rcases h with ⟨x, hx, hxn⟩
      rcases List.mem_cons.mp hx with rfl | hx2
      · rw [ho] at hxn; cases hxn
      · simp [fillICGo, ho, ih ⟨x, hx2, hxn⟩]

/-- Claim C7, amended: for a cell with an assigned model, an
initial-condition mapping with the wrong count is rejected and leaves
the stored condition unchanged (so a cell configured only this way
keeps no condition and the readiness check fails, refusing
integration); a mapping of the right count missing a node name raises
KeyError at assignment time while a partially written vector remains
stored; and a mapping containing every node name stores the vector
ordered by the model's node order.  A simulation containing any cell
without a stored condition never passes the readiness check. -/
theorem c7_ic_amended (c : Cell) (im : InternalModel) (d : List (String × ℚ))
    (him : c.IM = some im) :
    (d.length ≠ im.num_nodes → c.set_IC d = (c, none)) ∧
      (d.length = im.num_nodes → (∃ n ∈ im.nodes, lookupA d n.name = none) →
        (c.set_IC d).2 = some Err.keyError) ∧
      (d.length = im.num_nodes → (∀ n ∈ im.nodes, (lookupA d n.name).isSome = true) →
        c.set_IC d =
          ({ c with IC := some (im.nodes.map (fun n => (lookupA d n.name).getD 0)) },
            none)) ∧
      (∀ s : Simulation, ∀ c2 ∈ s.cells, c2.IC = none →
        s.simulation_ready ≠ .ok true) := by
  refine ⟨?_, ?_, ?_, ?_⟩
  · intro hne; simp [Cell.set_IC, him, hne]
  · intro hlen hex
    simp [Cell.set_IC, him, hlen, fillICGo_missing im.nodes d hex]
  · intro hlen hall
    simp [Cell.set_IC, him, hlen, fillICGo_found im.nodes d hall]
  · intro s c2 hc2 hIC hok
    have h2 := ((ready_ok_true_iff s).mp hok).2.1 c2 hc2
    rw [hIC] at h2
    simp at h2

/-- Witness for the amended claim C7: a short mapping is rejected
leaving the cell unchanged, the count-matching mapping with key `c`
instead of `b` raises KeyError, and a valid mapping with keys out of
order stores the vector in node order. -/
theorem c7_witness :
    cell7.set_IC [(aName, (3 : ℚ))] = (cell7, none) ∧
      (cell7.set_IC ic7).2 = some Err.keyError ∧
      cell7.set_IC ic7good =
        ({ cell7 with
            IC := some (im7.nodes.map (fun n => (lookupA ic7good n.name).getD 0)) },
          none) :=
  ⟨(c7_ic_amended cell7 im7 [(aName, (3 : ℚ))] rfl).1 (by decide),
    (c7_ic_amended cell7 im7 ic7 rfl).2.1 (by decide) (by decide),
    (c7_ic_amended cell7 im7 ic7good rfl).2.2.1 (by decide) (by decide)⟩

/-- Helper: appending an edge whose id is the current counter
preserves the edge-id invariant. -/
theorem inv_append_edge (edges : List Edge) (cnt : Nat) (e : Edge)
    (hid : e.edge_id = cnt)
    (h1 : ∀ x ∈ edges, x.edge_id < cnt)
    (h2 : (edges.map (fun x => x.edge_id)).Nodup) :
    (∀ x ∈ edges ++ [e], x.edge_id < cnt + 1) ∧
      ((edges ++ [e]).map (fun x => x.edge_id)).Nodup := by
  constructor
  · intro x hx
    rcases List.mem_append.mp hx with hx1 | hx2
    · exact Nat.lt_succ_of_lt (h1 x hx1)
    · rcases List.mem_singleton.mp hx2 with rfl
      rw [hid]; exact Nat.lt_succ_self cnt
  · rw [List.map_append]
    refine List.Nodup.append h2 (by simp) ?_
    intro a ha hb
    rcases List.mem_map.mp ha with ⟨x, hx, rfl⟩
    simp only [List.map_cons, List.map_nil, List.mem_singleton] at hb
    have hlt := h1 x hx
    rw [hb, hid] at hlt
    exact Nat.lt_irrefl cnt hlt

/-- Helper: `set_node_degradation` preserves the edge-id invariant. -/
theorem snd_deg_inv (m : InternalModel) (name : String) (deg : Option DegKind)
    (ps : Option (List ℚ))
    (h1 : ∀ x ∈ m.edges, x.edge_id < m.edge_counter)
    (h2 : (m.edges.map (fun x => x.edge_id)).Nodup) :
    (∀ x ∈ (m.set_node_degradation name deg ps).edges,
        x.edge_id < (m.set_node_degradation name deg ps).edge_counter) ∧
      ((m.set_node_degradation name deg ps).edges.map (fun x => x.edge_id)).Nodup := by
  unfold InternalModel.set_node_degradation
  rcases deg with _ | k
  · rcases m.get_node_id name with _ | i
    · exact ⟨h1, h2⟩
    · exact ⟨h1, h2⟩
  · rcases m.get_node_id name with _ | i
    · exact ⟨h1, h2⟩
    · exact inv_append_edge m.edges m.edge_counter _ rfl h1 h2

/-- Helper: every internal model built through the API has all edge
ids below its counter, pairwise distinct. -/
theorem built_inv {m : InternalModel} (h : IMBuilt m) :
    (∀ x ∈ m.edges, x.edge_id < m.edge_counter) ∧
      (m.edges.map (fun x => x.edge_id)).Nodup := by
  induction h with
  | init =>
    refine ⟨?_, ?_⟩
    · intro x hx
      simp [InternalModel.empty] at hx
    · simp [InternalModel.empty]
  | addNode m name deg ps _ ih =>
    exact snd_deg_inv _ name deg ps ih.1 ih.2
  | addEdge m f tgt ty b mt ps _ ih =>
    exact inv_append_edge m.edges m.edge_counter _ rfl ih.1 ih.2
  | setDeg m name deg ps _ ih =>
    exact snd_deg_inv m name deg ps ih.1 ih.2

/-- Claim C8, amended: within one internal model built through the
construction API, any two distinct edges carry distinct edge ids (the
id is drawn from the model's own creation counter, independent of
storage position); across different models the counters restart, so
ids are only unique per model, not simulation-wide. -/
theorem c8_edge_ids_amended (m : InternalModel) (h : IMBuilt m) :
    List.Pairwise (fun e1 e2 => e1.edge_id ≠ e2.edge_id) m.edges := by
  have hn := (built_inv h).2
  exact List.Pairwise.of_map (fun e : Edge => e.edge_id) (fun a b hne => hne) hn

/-- Witness for the amended claim C8: the two edges of `im8w` (the
degradation self-loop and the explicit edge) receive the distinct ids
0 and 1. -/
theorem c8_witness :
    im8w.edges.map (fun e => e.edge_id) = [0, 1] ∧
      List.Pairwise (fun e1 e2 => e1.edge_id ≠ e2.edge_id) im8w.edges :=
  ⟨rfl, c8_edge_ids_amended im8w
    (IMBuilt.addEdge _ _ _ _ _ _ _ (IMBuilt.addNode _ _ _ _ IMBuilt.init))⟩

/-- Claim C10: external interactions are matched to their targets
purely by node name — every non-modifier interaction whose target
name equals the name of species `j` of group `g` is among the
contributions that `deriv` accumulates into that species' column, for
every such group, with no model scoping. -/
theorem c10_name_matching (s : Simulation) (g j : Nat) (i : Interaction)
    (h1 : i ∈ s.interactions) (h2 : i.to_node = some (nodeNameAt s g j)) :
    Contrib.ext i ∈ contribsFor s g j := by
  unfold contribsFor
  apply List.mem_append_right
  apply List.mem_map_of_mem
  unfold Simulation.get_contributions
  rw [List.mem_filter]
  exact ⟨h1, by simp [h2]⟩

/-- Witness for claim C10: in a two-group simulation whose groups both
have a node named `a`, the single diffusion interaction into `a` is
gathered for species 0 of group 0 and for species 0 of group 1. -/
theorem c10_witness :
    nodeNameAt sim10 0 0 = aName ∧ nodeNameAt sim10 1 0 = aName ∧
      Contrib.ext interD ∈ contribsFor sim10 0 0 ∧
      Contrib.ext interD ∈ contribsFor sim10 1 0 :=
  ⟨rfl, rfl, c10_name_matching sim10 0 0 interD (List.mem_singleton.mpr rfl) rfl,
    c10_name_matching sim10 1 0 interD (List.mem_singleton.mpr rfl) rfl⟩


/-- Helper: reading a mapped range with a default. -/
theorem getD_map_range {α : Type} (n : Nat) (f : Nat → α) (d : α) (i : Nat) :
    ((List.range n).map f).getD i d = if i < n then f i else d := by
  rw [List.getD_eq_getElem?_getD, List.getElem?_map]
  split
  next h => rw [List.getElem?_range h]; rfl
  next h =>
    rw [List.getElem?_eq_none (by simpa using Nat.le_of_not_lt h)]
    rfl

/-- Helper: reading an elementwise-negated Boolean row with the
source's mask defaults. -/
theorem rowNot_getD (row : List Bool) (j : Nat) :
    (row.map (fun b => !b)).getD j true = !(row.getD j false) := by
  induction row generalizing j with
  | nil => rfl
  | cons b bs ih =>
    cases j with
    | zero => rfl
    | succ k => simpa using ih k

/-- Helper: reading the negated connection matrix. -/
theorem cmask_getD (conns : List (List Bool)) (i j : Nat) :
    ((conns.map (fun row => row.map (fun b => !b))).getD i []).getD j true
      = !((conns.getD i []).getD j false) := by
  induction conns generalizing i with
  | nil => rfl
  | cons r rs ih =>
    cases i with
    | zero => simpa using rowNot_getD r j
    | succ k => simpa using ih k

/-- Helper: the squared distance from a vector to itself is zero. -/
theorem sqdist_self (p : List ℚ) : sqdist p p = 0 := by
  induction p with
  | nil => rfl
  | cons a as ih => simp [sqdist, List.zipWith_cons_cons] at ih ⊢

/-- Helper: the squared distance from the empty position vector is
zero. -/
theorem sqdist_nil (q : List ℚ) : sqdist [] q = 0 := rfl

/-- Helper: multiplying a sum through by a constant. -/
theorem sumMapMulLeft {α : Type} (l : List α) (f : α → ℚ) (r : ℚ) :
    (l.map (fun b => r * f b)).sum = r * (l.map f).sum := by
  induction l with
  | nil => simp
  | cons a as ih => simp [ih, mul_add]

/-- Helper: one row of the source diffusion term equals the
specification formula. -/
theorem diffRow_eq_spec (connections : List (List Bool)) (cells : List Cell)
    (C : ℚ) (row : List ℚ) (i : Nat) :
    diffRow (mkDiffusion connections cells (some [C])) row i =
      diffusionSpecRow C (cells.map (fun c => c.position.getD []))
        connections row i := by
  unfold diffRow diffusionSpecRow mkDiffusion
  simp only [Option.getD_some, List.getD_cons_zero]
  have hlen : (distPreOf cells).length = cells.length := by
    simp [distPreOf]
  rw [hlen, List.length_map, ← sumMapMulLeft]
  apply congrArg List.sum
  apply List.map_congr_left
  intro j hj
  have hjn : j < cells.length := List.mem_range.mp hj
  rw [cmask_getD]
  rcases hconn : (connections.getD i []).getD j false with _ | _
  · simp [hconn]
  · simp only [hconn, Bool.not_true, Bool.false_eq_true, if_false, true_and]
    by_cases hi : i < cells.length
    · have hpre : ((distPreOf cells).getD i []).getD j 0 =
          (if sqdist ((cells.map (fun c => c.position.getD [])).getD i [])
                ((cells.map (fun c => c.position.getD [])).getD j []) = 0 then 0
           else 1 / sqdist ((cells.map (fun c => c.position.getD [])).getD i [])
                ((cells.map (fun c => c.position.getD [])).getD j [])) := by
        unfold distPreOf
        rw [getD_map_range, if_pos hi, getD_map_range, if_pos hjn]
      by_cases hd : sqdist ((cells.map (fun c => c.position.getD [])).getD i [])
          ((cells.map (fun c => c.position.getD [])).getD j []) = 0
      · rw [hpre, if_pos hd, if_neg (fun hcon => hcon hd)]
        ring
      · rw [hpre, if_neg hd, if_pos hd]
        ring
    · have hpre : ((distPreOf cells).getD i []).getD j 0 = 0 := by
        unfold distPreOf
        rw [getD_map_range, if_neg hi]
        rfl
      have hposi : (cells.map (fun c => c.position.getD [])).getD i [] = [] := by
        apply List.getD_eq_default
        simpa using Nat.le_of_not_lt hi
      rw [hpre, hposi, sqdist_nil]
      simp

/-- Claim C5: with valid parameters, the source diffusion term
computes, for each row `k` of the working matrix (evaluating cell
`lower + k`), exactly `C * Σ_j mask * (1/dist²) * (x_j − x_i)` over
the connected compartments, where any non-connected pair and any pair
at squared distance zero (in particular a compartment with itself, or
two compartments at identical positions) contribute exactly 0 and the
division is never taken at a zero distance; moreover the precomputed
self-weight is always 0. -/
theorem c5_diffusion_spec (connections : List (List Bool)) (cells : List Cell)
    (C : ℚ) (x : List (List ℚ)) (bounds : Nat × Nat) :
    (mkDiffusion connections cells (some [C])).apply x bounds =
      .ok ((List.range x.length).map (fun k =>
        diffusionSpecRow C (cells.map (fun c => c.position.getD []))
          connections (x.getD k []) (bounds.1 + k))) ∧
      ∀ i, ((mkDiffusion connections cells (some [C])).dist_pre.getD i []).getD i 0
          = 0 := by
  constructor
  · unfold IntModel.apply
    have hps : (mkDiffusion connections cells (some [C])).params_set = true := by
      simp [mkDiffusion]
    rw [hps]
    simp only [Bool.not_true, Bool.false_eq_true, if_false]
    congr 1
    apply List.map_congr_left
    intro k _
    exact diffRow_eq_spec connections cells C (x.getD k []) (bounds.1 + k)
  · intro i
    show ((distPreOf cells).getD i []).getD i 0 = 0
    unfold distPreOf
    by_cases hi : i < cells.length
    · rw [getD_map_range, if_pos hi, getD_map_range, if_pos hi, sqdist_self]
      simp
    · rw [getD_map_range, if_neg hi]
      rfl


/-- Helper: writing one buffer leaves the others unchanged. -/
theorem hread_write_ne (h : Heap) (i j : Nat) (b : List ℚ) (hne : j ≠ i) :
    hread (hwrite h i b) j = hread h j := by
  unfold hread hwrite
  rw [List.getD_eq_getElem?_getD, List.getD_eq_getElem?_getD,
    List.getElem?_set_ne (Ne.symm hne)]

/-- Helper: reading back a written buffer. -/
theorem hread_write_self (h : Heap) (i : Nat) (b : List ℚ) (hi : i < h.length) :
    hread (hwrite h i b) i = b := by
  unfold hread hwrite
  rw [List.getD_eq_getElem?_getD, List.getElem?_set_self hi]
  rfl

/-- Helper: allocation leaves the existing buffers unchanged. -/
theorem hread_append_lt (h : Heap) (b : List ℚ) (j : Nat) (hj : j < h.length) :
    hread (h ++ [b]) j = hread h j := by
  unfold hread
  rw [List.getD_eq_getElem?_getD, List.getD_eq_getElem?_getD, List.getElem?_append]
  rw [if_pos hj]

/-- Helper: heap extension is reflexive. -/
theorem heapExt_refl (h : Heap) : HeapExt h h := ⟨Nat.le_refl _, fun _ _ => rfl⟩

/-- Helper: heap extension is transitive. -/
theorem heapExt_trans {h1 h2 h3 : Heap} (a : HeapExt h1 h2) (b : HeapExt h2 h3) :
    HeapExt h1 h3 :=
  ⟨Nat.le_trans a.1 b.1,
    fun i hi => (b.2 i (Nat.lt_of_lt_of_le hi a.1)).trans (a.2 i hi)⟩

/-- Helper: allocation is a heap extension. -/
theorem heapExt_alloc (h : Heap) (b : List ℚ) : HeapExt h (h ++ [b]) := by
  refine ⟨?_, fun i hi => hread_append_lt h b i hi⟩
  rw [List.length_append]
  omega

/-- Helper: elementwise products keep the common length. -/
theorem mulVec_length (a b : List ℚ) (ha : a.length = b.length) :
    (mulVec a b).length = a.length := by
  simp [mulVec, ha]

/-- Helper: a successful run of the internal-modifier loop only grows
the heap, only rewrites the `xcontrib` buffer, and keeps that
buffer's length. -/
theorem internModLoop_spec {res : Contrib → Heap → Except Err (Heap × List ℚ)}
    {nc : Nat} (H : ResOK res nc) :
    ∀ (ms : List Contrib) (xid : Nat) (h h2 : Heap),
      internModLoop res ms xid h = .ok h2 → xid < h.length →
      (hread h xid).length = nc →
      h.length ≤ h2.length ∧
        (∀ i, i < h.length → i ≠ xid → hread h2 i = hread h i) ∧
        (hread h2 xid).length = nc ∧ xid < h2.length := by
  intro ms
  induction ms with
  | nil =>
    intro xid h h2 heq hx hn
    simp only [internModLoop, Except.ok.injEq] at heq
    subst heq
    exact ⟨Nat.le_refl _, fun i _ _ => rfl, hn, hx⟩
  | cons m ms ih =>
    intro xid h h2 heq hx hn
    simp only [internModLoop] at heq
    by_cases hmt : (m.mod_type == some internTag) = true
    · rw [if_pos hmt] at heq
      cases hres : res m h with
      | error e => rw [hres] at heq; cases heq
      | ok p =>
        rw [hres] at heq
        obtain ⟨hext, hlen⟩ := H m h p.1 p.2 hres
        have hx3 : xid < p.1.length := Nat.lt_of_lt_of_le hx hext.1
        have hrd : hread p.1 xid = hread h xid := hext.2 xid hx
        have hml : (mulVec (hread p.1 xid) p.2).length = nc := by
          rw [mulVec_length _ _ (by rw [hrd, hn, hlen]), hrd, hn]
        have hx4 : xid < (hwrite p.1 xid (mulVec (hread p.1 xid) p.2)).length := by
          unfold hwrite; rw [List.length_set]; exact hx3
        have hn4 : (hread (hwrite p.1 xid (mulVec (hread p.1 xid) p.2)) xid).length
            = nc := by
          rw [hread_write_self _ _ _ hx3]; exact hml
        obtain ⟨l1, f1, n1, x1⟩ := ih xid _ h2 heq hx4 hn4
        refine ⟨?_, ?_, n1, x1⟩
        · calc h.length ≤ p.1.length := hext.1
            _ = (hwrite p.1 xid (mulVec (hread p.1 xid) p.2)).length := by
                unfold hwrite; rw [List.length_set]
            _ ≤ h2.length := l1
        · intro i hi hne
          have hi4 : i < (hwrite p.1 xid (mulVec (hread p.1 xid) p.2)).length := by
            unfold hwrite
            rw [List.length_set]
            exact Nat.lt_of_lt_of_le hi hext.1
          rw [f1 i hi4 hne, hread_write_ne _ _ _ _ hne, hext.2 i hi]
    · rw [if_neg hmt] at heq
      exact ih xid h h2 heq hx hn

/-- Helper: a successful run of the multiplicative-modifier loop
extends the heap and keeps the accumulated vector's length. -/
theorem multModLoop_spec {res : Contrib → Heap → Except Err (Heap × List ℚ)}
    {nc : Nat} (H : ResOK res nc) :
    ∀ (ms : List Contrib) (h : Heap) (yc : List ℚ) (h2 : Heap) (yc2 : List ℚ),
      multModLoop res ms h yc = .ok (h2, yc2) → yc.length = nc →
      HeapExt h h2 ∧ yc2.length = nc := by
  intro ms
  induction ms with
  | nil =>
    intro h yc h2 yc2 heq hyc
    simp only [multModLoop, Except.ok.injEq, Prod.mk.injEq] at heq
    obtain ⟨rfl, rfl⟩ := heq
    exact ⟨heapExt_refl h, hyc⟩
  | cons m ms ih =>
    intro h yc h2 yc2 heq hyc
    simp only [multModLoop] at heq
    by_cases hmt : (m.mod_type == some multTag) = true
    · rw [if_pos hmt] at heq
      cases hres : res m h with
      | error e => rw [hres] at heq; cases heq
      | ok p =>
        rw [hres] at heq
        obtain ⟨hext, hlen⟩ := H m h p.1 p.2 hres
        have hml : (mulVec yc p.2).length = nc := by
          rw [mulVec_length _ _ (by rw [hyc, hlen]), hyc]
        obtain ⟨e2, l2⟩ := ih p.1 _ h2 yc2 heq hml
        exact ⟨heapExt_trans hext e2, l2⟩
    · rw [if_neg hmt] at heq
      exact ih h yc h2 yc2 heq hyc

/-- Helper: a successful interaction-term application returns one
entry per row of the working matrix. -/
theorem intModel_apply_length {m : IntModel} {x : List (List ℚ)} {b : Nat × Nat}
    {r : List ℚ} (h : m.apply x b = .ok r) : r.length = x.length := by
  unfold IntModel.apply at h
  split at h
  · cases h
  · simp only [Except.ok.injEq] at h
    rw [← h]
    simp

/-- Helper: a successful edge-term application preserves the input
length. -/
theorem edgeModel_apply_length {m : EdgeModel} {x r : List ℚ}
    (h : m.apply x = .ok r) : r.length = x.length := by
  unfold EdgeModel.apply at h
  split at h
  · cases h
  · split at h <;> (simp only [Except.ok.injEq] at h; rw [← h]; simp)

/-- Helper: the external internal-modifier loop returns its input
unchanged when it does not crash. -/
theorem extInternLoop_ok {ms : List Interaction} {x x2 : List (List ℚ)}
    (h : extInternLoop ms x = .ok x2) : x2 = x := by
  induction ms with
  | nil =>
    simp only [extInternLoop, Except.ok.injEq] at h
    exact h.symm
  | cons m ms ih =>
    simp only [extInternLoop] at h
    split at h
    · cases h
    · exact ih h

/-- Helper: a column read has the group's cell count. -/
theorem ycolumn_length (s : Simulation) (y : List ℚ) (g col : Nat) :
    (ycolumn s y g col).length = IM_ncellsAt s g := by
  simp [ycolumn]

/-- Helper: allocation appends one buffer. -/
theorem halloc_length (h : Heap) (b : List ℚ) :
    (halloc h b).1.length = h.length + 1 := by
  simp [halloc]

/-- Helper: the allocated id is the old heap length. -/
theorem halloc_snd (h : Heap) (b : List ℚ) : (halloc h b).2 = h.length := rfl

/-- Helper: reading the freshly allocated buffer. -/
theorem hread_halloc_new (h : Heap) (b : List ℚ) :
    hread (halloc h b).1 (halloc h b).2 = b := by
  unfold halloc hread
  rw [List.getD_eq_getElem?_getD, List.getElem?_append, if_neg (by omega),
    Nat.sub_self]
  rfl

/-- Core frame and length property of the resolver: a successful
resolution leaves every pre-existing buffer (in particular the
canonical state in buffer 0) unchanged, only growing the heap, and
returns one value per cell of the evaluated group. -/
theorem resolveC_spec : ∀ (fuel : Nat) (s : Simulation) (c : Contrib)
    (IM_id : Nat) (h h2 : Heap) (v : List ℚ),
    resolveC fuel s c IM_id h = .ok (h2, v) →
    HeapExt h h2 ∧ v.length = IM_ncellsAt s IM_id := by
  intro fuel
  induction fuel with
  | zero =>
    intro s c IM_id h h2 v heq
    simp [resolveC] at heq
  | succ fuel ih =>
    intro s c IM_id h h2 v heq
    have hres : ResOK (fun c2 hh => resolveC fuel s c2 IM_id hh)
        (IM_ncellsAt s IM_id) := fun c2 hh hh2 v2 he => ih s c2 IM_id hh hh2 v2 he
    cases c with
    | ext i =>
      simp only [resolveC] at heq
      cases hgm : s.get_modifiers i.int_id none with
      | error e => simp only [hgm] at heq; cases heq
      | ok ext_mods =>
        simp only [hgm] at heq
        cases hex : extInternLoop ext_mods
            (List.replicate (IM_ncellsAt s IM_id)
              (buildXdata s (hread h 0) i.from_node)) with
        | error e => simp only [hex] at heq; cases heq
        | ok xc2 =>
          simp only [hex] at heq
          cases happ : i.model.apply xc2 (s.IM_bounds.getD IM_id (0, 0)) with
          | error e => simp only [happ] at heq; cases heq
          | ok yc =>
            simp only [happ] at heq
            have hyc : yc.length = IM_ncellsAt s IM_id := by
              rw [intModel_apply_length happ, extInternLoop_ok hex]
              simp
            exact multModLoop_spec hres (ext_mods.map Contrib.ext) h yc h2 v heq hyc
    | ie e =>
      simp only [resolveC] at heq
      cases hgm : s.get_modifiers e.edge_id (some IM_id) with
      | error er => simp only [hgm] at heq; cases heq
      | ok ext_mods =>
        simp only [hgm] at heq
        cases hni : (s.IMs.getD IM_id InternalModel.empty).get_node_id e.from_node with
        | none => simp only [hni] at heq; cases heq
        | some fid =>
          simp only [hni] at heq
          cases hil : internModLoop (fun c2 hh => resolveC fuel s c2 IM_id hh)
              (((s.IMs.getD IM_id InternalModel.empty).get_modifiers e.edge_id).map
                  Contrib.ie ++ ext_mods.map Contrib.ext)
              (halloc h (ycolumn s (hread h 0) IM_id fid)).2
              (halloc h (ycolumn s (hread h 0) IM_id fid)).1 with
          | error er => simp only [hil] at heq; cases heq
          | ok h3 =>
            simp only [hil] at heq
            have hla := halloc_length h (ycolumn s (hread h 0) IM_id fid)
            have hx : (halloc h (ycolumn s (hread h 0) IM_id fid)).2 <
                (halloc h (ycolumn s (hread h 0) IM_id fid)).1.length := by
              rw [halloc_snd]; omega
            have hn : (hread (halloc h (ycolumn s (hread h 0) IM_id fid)).1
                (halloc h (ycolumn s (hread h 0) IM_id fid)).2).length
                = IM_ncellsAt s IM_id := by
              rw [hread_halloc_new, ycolumn_length]
            obtain ⟨l3, f3, n3, x3⟩ := internModLoop_spec hres _ _ _ h3 hil hx hn
            cases happ : e.model.apply (hread h3
                (halloc h (ycolumn s (hread h 0) IM_id fid)).2) with
            | error er => simp only [happ] at heq; cases heq
            | ok yc =>
              simp only [happ] at heq
              have hyc : yc.length = IM_ncellsAt s IM_id := by
                rw [edgeModel_apply_length happ]; exact n3
              obtain ⟨e4, l4⟩ := multModLoop_spec hres _ h3 yc h2 v heq hyc
              refine ⟨heapExt_trans ⟨by omega, ?_⟩ e4, l4⟩
              intro j hj
              have hj1 : j < (halloc h (ycolumn s (hread h 0) IM_id fid)).1.length := by
                omega
              have hjne : j ≠ (halloc h (ycolumn s (hread h 0) IM_id fid)).2 := by
                rw [halloc_snd]; omega
              rw [f3 j hj1 hjne]
              exact hread_append_lt h _ j hj


/-- Helper: column accumulation keeps every row's length. -/
theorem addToCol_row_len (ns : Nat) :
    ∀ (M : List (List ℚ)) (v : List ℚ) (j : Nat),
      (∀ r ∈ M, r.length = ns) → ∀ r ∈ addToCol M j v, r.length = ns := by
  intro M
  induction M with
  | nil => intro v j _ r hr; simp [addToCol] at hr
  | cons row M ih =>
    intro v j hM r hr
    cases v with
    | nil => simp [addToCol] at hr
    | cons a as =>
      simp only [addToCol, List.zipWith_cons_cons, List.mem_cons] at hr
      rcases hr with rfl | hr
      · rw [List.length_set]
        exact hM row (List.mem_cons_self row M)
      · exact ih as j (fun r2 hr2 => hM r2 (List.mem_cons_of_mem _ hr2)) r hr

/-- Helper: column accumulation keeps the row count when the added
vector matches it. -/
theorem addToCol_length (M : List (List ℚ)) (v : List ℚ) (j : Nat)
    (h : v.length = M.length) : (addToCol M j v).length = M.length := by
  simp [addToCol, h]

/-- Helper: the per-species contribution loop extends the heap and
preserves the accumulator's dimensions. -/
theorem contribLoop_spec (fuel : Nat) (s : Simulation) (g j : Nat) :
    ∀ (cs : List Contrib) (h : Heap) (M : List (List ℚ)) (h2 : Heap)
      (M2 : List (List ℚ)),
      contribLoop fuel s g j cs h M = .ok (h2, M2) →
      M.length = IM_ncellsAt s g → (∀ r ∈ M, r.length = IM_nspeciesAt s g) →
      HeapExt h h2 ∧ M2.length = IM_ncellsAt s g ∧
        ∀ r ∈ M2, r.length = IM_nspeciesAt s g := by
  intro cs
  induction cs with
  | nil =>
    intro h M h2 M2 heq hl hr
    simp only [contribLoop, Except.ok.injEq, Prod.mk.injEq] at heq
    obtain ⟨rfl, rfl⟩ := heq
    exact ⟨heapExt_refl h, hl, hr⟩
  | cons c cs ih =>
    intro h M h2 M2 heq hl hr
    simp only [contribLoop] at heq
    cases hres : resolveC fuel s c g h with
    | error e => rw [hres] at heq; cases heq
    | ok p =>
      rw [hres] at heq
      obtain ⟨hext, hlen⟩ := resolveC_spec fuel s c g h p.1 p.2 hres
      have hl2 : (addToCol M j p.2).length = IM_ncellsAt s g := by
        rw [addToCol_length M p.2 j (by rw [hlen, hl])]
        exact hl
      have hr2 := addToCol_row_len (IM_nspeciesAt s g) M p.2 j hr
      obtain ⟨e2, l2, r2⟩ := ih p.1 _ h2 M2 heq hl2 hr2
      exact ⟨heapExt_trans hext e2, l2, r2⟩

/-- Helper: the per-group species loop extends the heap and preserves
the accumulator's dimensions. -/
theorem speciesLoop_spec (fuel : Nat) (s : Simulation) (g : Nat) :
    ∀ (js : List Nat) (h : Heap) (M : List (List ℚ)) (h2 : Heap)
      (M2 : List (List ℚ)),
      speciesLoop fuel s g js h M = .ok (h2, M2) →
      M.length = IM_ncellsAt s g → (∀ r ∈ M, r.length = IM_nspeciesAt s g) →
      HeapExt h h2 ∧ M2.length = IM_ncellsAt s g ∧
        ∀ r ∈ M2, r.length = IM_nspeciesAt s g := by
  intro js
  induction js with
  | nil =>
    intro h M h2 M2 heq hl hr
    simp only [speciesLoop, Except.ok.injEq, Prod.mk.injEq] at heq
    obtain ⟨rfl, rfl⟩ := heq
    exact ⟨heapExt_refl h, hl, hr⟩
  | cons j js ih =>
    intro h M h2 M2 heq hl hr
    simp only [speciesLoop] at heq
    cases hcl : contribLoop fuel s g j (contribsFor s g j) h M with
    | error e => rw [hcl] at heq; cases heq
    | ok p =>
      rw [hcl] at heq
      obtain ⟨e1, l1, r1⟩ := contribLoop_spec fuel s g j _ h M p.1 p.2 hcl hl hr
      obtain ⟨e2, l2, r2⟩ := ih p.1 p.2 h2 M2 heq l1 r1
      exact ⟨heapExt_trans e1 e2, l2, r2⟩

/-- Helper: the group loop extends the heap and returns, per group,
an accumulator of that group's dimensions. -/
theorem groupLoop_spec (fuel : Nat) (s : Simulation) :
    ∀ (gs : List Nat) (h : Heap) (h2 : Heap) (Ms : List (List (List ℚ))),
      groupLoop fuel s gs h = .ok (h2, Ms) →
      HeapExt h h2 ∧
        List.Forall₂ (fun g M => M.length = IM_ncellsAt s g ∧
          ∀ r ∈ M, r.length = IM_nspeciesAt s g) gs Ms := by
  intro gs
  induction gs with
  | nil =>
    intro h h2 Ms heq
    simp only [groupLoop, Except.ok.injEq, Prod.mk.injEq] at heq
    obtain ⟨rfl, rfl⟩ := heq
    exact ⟨heapExt_refl h, List.Forall₂.nil⟩
  | cons g gs ih =>
    intro h h2 Ms heq
    simp only [groupLoop] at heq
    cases hsp : speciesLoop fuel s g (List.range (IM_nspeciesAt s g)) h
        (zerosMat (IM_ncellsAt s g) (IM_nspeciesAt s g)) with
    | error e => simp only [hsp] at heq; cases heq
    | ok p =>
      simp only [hsp] at heq
      cases hgl : groupLoop fuel s gs p.1 with
      | error e => simp only [hgl] at heq; cases heq
      | ok q =>
        simp only [hgl] at heq
        simp only [Except.ok.injEq, Prod.mk.injEq] at heq
        obtain ⟨rfl, rfl⟩ := heq
        have hz1 : (zerosMat (IM_ncellsAt s g) (IM_nspeciesAt s g)).length
            = IM_ncellsAt s g := by simp [zerosMat]
        have hz2 : ∀ r ∈ zerosMat (IM_ncellsAt s g) (IM_nspeciesAt s g),
            r.length = IM_nspeciesAt s g := by
          intro r hr
          rw [List.eq_of_mem_replicate hr]
          simp
        obtain ⟨e1, l1, r1⟩ := speciesLoop_spec fuel s g _ h _ p.1 p.2 hsp hz1 hz2
        obtain ⟨e2, f2⟩ := ih p.1 q.1 q.2 hgl
        exact ⟨heapExt_trans e1 e2, List.Forall₂.cons ⟨l1, r1⟩ f2⟩

/-- Claim C9: evaluating the derivative never mutates the canonical
state — for every simulation, fuel and state vector, a successful run
of `deriv` leaves buffer 0 (the flattened state `y`, of which the
per-group `ycurrent` matrices are views) exactly as it was: the
resolver copies the source species column into a fresh buffer before
any in-place modifier scaling, and every in-place write lands in a
buffer allocated during the call. -/
theorem c9_deriv_frame (fuel : Nat) (s : Simulation) (y : List ℚ) (h : Heap)
    (d : List ℚ) (hok : derivH fuel s y = .ok (h, d)) : hread h 0 = y := by
  unfold derivH at hok
  cases hgl : groupLoop fuel s (List.range s.IMs.length) [y] with
  | error e => simp only [hgl] at hok; cases hok
  | ok p =>
    simp only [hgl] at hok
    cases hra : reduceAppend (p.2.map matFlatten) with
    | error e => simp only [hra] at hok; cases hok
    | ok d2 =>
      simp only [hra] at hok
      simp only [Except.ok.injEq, Prod.mk.injEq] at hok
      obtain ⟨rfl, rfl⟩ := hok
      obtain ⟨hext, -⟩ := groupLoop_spec fuel s _ [y] p.1 p.2 hgl
      have h0 := hext.2 0 (by simp)
      rw [h0]
      rfl

/-- Witness for claim C9: on the one-cell linear-degradation
simulation with state `[2]`, `deriv` returns `[-2]`, the final heap is
`[[2], [2]]` (canonical state plus the copied column), and buffer 0
still holds the state. -/
theorem c9_witness :
    derivH 5 sim9 [2] = .ok ([[2], [2]], [-2]) ∧
      hread [[(2 : ℚ)], [2]] 0 = [2] := by
  have hev : derivH 5 sim9 [2] = .ok ([[2], [2]], [-2]) := by
    norm_num [derivH, groupLoop, speciesLoop, contribLoop, resolveC, contribsFor,
      nodeNameAt, Simulation.get_contributions, InternalModel.get_contributions,
      InternalModel.get_modifiers, Simulation.get_modifiers, EdgeModel.apply,
      internModLoop, multModLoop, extInternLoop, ycolumn, dBoundAt, derivBoundsList,
      cumsumGo, IM_prods, IM_ncellsAt, IM_nspeciesAt, InternalModel.num_nodes,
      lookupA, InternalModel.get_node_id, halloc, hread, hwrite, mulVec, addToCol,
      zerosMat, matFlatten, reduceAppend, sim9, imA, cell9, InternalModel.add_node,
      InternalModel.set_node_degradation, mkDegModel, Node.init, Edge.make,
      Cell.init, Cell.set_IM, InternalModel.empty, updateNodeAt, aName,
      List.getD, List.range_succ]
  exact ⟨hev, c9_deriv_frame 5 sim9 [2] [[2], [2]] [-2] hev⟩


/-- Helper: folding append over a list of lists, starting from the
first, concatenates everything. -/
theorem foldl_append_eq (x : List ℚ) (xs : List (List ℚ)) :
    xs.foldl (fun a b => a ++ b) x = x ++ xs.flatten := by
  induction xs generalizing x with
  | nil => simp
  | cons y ys ih => simp [List.foldl_cons, ih, List.append_assoc]

/-- Helper: Python `reduce(np.append, ...)` on a nonempty list is the
concatenation of its parts. -/
theorem reduceAppend_ok {l : List (List ℚ)} (h : l ≠ []) :
    reduceAppend l = .ok l.flatten := by
  cases l with
  | nil => cases h rfl
  | cons x xs =>
    show Except.ok (xs.foldl (fun a b => a ++ b) x) = Except.ok (x :: xs).flatten
    rw [foldl_append_eq]
    rfl

/-- Helper: the initial-state assembly of `simulate` produces exactly
the specification-shaped group-major concatenation. -/
theorem simulate_y0_eq (s : Simulation) (hne : s.IMs ≠ []) :
    simulate_y0 s = .ok (specY0 s) := by
  have hlen : s.IMs.length ≠ 0 := by
    intro h0
    exact hne (List.eq_nil_of_length_eq_zero h0)
  unfold simulate_y0 yinitialMats
  rw [reduceAppend_ok (by simpa [List.range_eq_nil] using hlen)]
  rw [List.map_map]
  rfl

/-- Helper: sum of a one-longer prefix. -/
theorem sum_take_succ_nat : ∀ (l : List Nat) (i : Nat), i < l.length →
    (l.take (i + 1)).sum = (l.take i).sum + l.getD i 0 := by
  intro l
  induction l with
  | nil => intro i hi; simp at hi
  | cons x xs ih =>
    intro i hi
    cases i with
    | zero => simp
    | succ k =>
      simp only [List.take_succ_cons, List.sum_cons, List.getD_cons_succ]
      rw [ih k (by simpa using hi)]
      omega

/-- Helper: entries of the in-place cumulative sum are prefix sums. -/
theorem cumsumGo_getD : ∀ (l : List Nat) (acc i : Nat), i < l.length →
    (cumsumGo l acc).getD i 0 = acc + (l.take (i + 1)).sum := by
  intro l
  induction l with
  | nil => intro acc i hi; simp at hi
  | cons x xs ih =>
    intro acc i hi
    cases i with
    | zero => simp [cumsumGo]; omega
    | succ k =>
      simp only [cumsumGo, List.getD_cons_succ, List.take_succ_cons, List.sum_cons]
      rw [ih (x + acc) k (by simpa using hi)]
      omega

/-- Helper: the flat-state bound at index `i` is the sum of the first
`i` per-group block sizes. -/
theorem dBoundAt_take (s : Simulation) : ∀ i, i ≤ (IM_prods s).length →
    dBoundAt s i = ((IM_prods s).take i).sum := by
  intro i hi
  cases i with
  | zero => simp [dBoundAt, derivBoundsList]
  | succ k =>
    unfold dBoundAt derivBoundsList
    rw [List.getD_cons_succ, cumsumGo_getD (IM_prods s) 0 k (by omega)]
    omega

/-- Helper: dropping the summed lengths of the first `i` blocks of a
concatenation and taking the `i`-th block's length recovers that
block. -/
theorem flatten_drop_take {α : Type} : ∀ (bs : List (List α)) (i : Nat),
    i < bs.length →
    ((bs.flatten).drop (((bs.take i).map List.length).sum)).take
        (bs.getD i []).length = bs.getD i [] := by
  intro bs
  induction bs with
  | nil => intro i hi; simp at hi
  | cons b bs ih =>
    intro i hi
    cases i with
    | zero => simp [List.take_left]
    | succ k =>
      simp only [List.take_succ_cons, List.map_cons, List.sum_cons,
        List.flatten_cons, List.getD_cons_succ]
      rw [List.drop_append]
      exact ih k (by simpa using hi)

/-- Helper: under aligned initial conditions, the total flattened
derivative produced by `deriv` has one entry per (cell, species) pair,
summed over the groups. -/
theorem forall2_mat_len_sum (s : Simulation) :
    ∀ (gs : List Nat) (Ms : List (List (List ℚ))),
      List.Forall₂ (fun g M => M.length = IM_ncellsAt s g ∧
        ∀ r ∈ M, r.length = IM_nspeciesAt s g) gs Ms →
      ((Ms.map matFlatten).map List.length).sum =
        (gs.map (fun g => IM_ncellsAt s g * IM_nspeciesAt s g)).sum := by
  intro gs Ms hf
  induction hf with
  | nil => rfl
  | @cons g M gs2 Ms2 hgm htail ih =>
    simp only [List.map_cons, List.sum_cons, ih]
    congr 1
    show (matFlatten M).length = IM_ncellsAt s g * IM_nspeciesAt s g
    rw [matFlatten, List.length_flatten]
    have hrep : M.map List.length =
        List.replicate (IM_ncellsAt s g) (IM_nspeciesAt s g) := by
      rw [List.eq_replicate_iff]
      exact ⟨by rw [List.length_map, hgm.1], by
        intro b hb
        rcases List.mem_map.mp hb with ⟨r, hr, rfl⟩
        exact hgm.2 r hr⟩
    rw [hrep, List.sum_replicate, smul_eq_mul]

/-- Claim C1, amended: the flattened state produced by `simulate` is
laid out group-major in model registration order, cells within a group
in membership order, species within a cell in node order (it equals
the specification-shaped nested concatenation); the flat-state bounds
computed inside `deriv` are disjoint contiguous ranges partitioning
that vector, starting at 0, stepping by (group size × species count)
and ending at the total Σ (group size × species count), and the
`i`-th range carves out exactly group `i`'s block; a successful
derivative evaluation returns a vector of the same total length.  The
cell-group bounds computed by `set_cell_bounds` before integration
are cell-index bounds and do not index the flattened vector (see the
counterexample). -/
theorem c1_layout_amended (s : Simulation) (hne : s.IMs ≠ [])
    (halign : ICsAligned s) :
    simulate_y0 s = .ok (specY0 s) ∧
      (specY0 s).length = (IM_prods s).sum ∧
      dBoundAt s 0 = 0 ∧
      (∀ i, i < s.IMs.length →
        dBoundAt s (i + 1) = dBoundAt s i + IM_ncellsAt s i * IM_nspeciesAt s i) ∧
      dBoundAt s s.IMs.length = (IM_prods s).sum ∧
      (∀ i, i < s.IMs.length →
        ((specY0 s).drop (dBoundAt s i)).take
            (IM_ncellsAt s i * IM_nspeciesAt s i)
          = ((s.IM_cells.getD i []).map (fun cid =>
              (s.cells.getD cid Cell.init).IC.getD [])).flatten) ∧
      (∀ fuel y h d, derivH fuel s y = .ok (h, d) →
        d.length = (IM_prods s).sum) := by
  have hplen : (IM_prods s).length = s.IMs.length := by simp [IM_prods]
  have hblock : ∀ i, i < s.IMs.length →
      (((s.IM_cells.getD i []).map (fun cid =>
        (s.cells.getD cid Cell.init).IC.getD [])).flatten).length
        = IM_ncellsAt s i * IM_nspeciesAt s i := by
    intro i hi
    rw [List.length_flatten, List.map_map]
    have hrep : (s.IM_cells.getD i []).map
        (List.length ∘ fun cid => (s.cells.getD cid Cell.init).IC.getD [])
        = List.replicate (IM_ncellsAt s i) (IM_nspeciesAt s i) := by
      rw [List.eq_replicate_iff]
      refine ⟨by simp [IM_ncellsAt], ?_⟩
      intro b hb
      rcases List.mem_map.mp hb with ⟨cid, hcid, rfl⟩
      exact halign i hi cid hcid
    rw [hrep, List.sum_replicate, smul_eq_mul]
  have hblocksmap : ((List.range s.IMs.length).map (fun g =>
      ((s.IM_cells.getD g []).map (fun cid =>
        (s.cells.getD cid Cell.init).IC.getD [])).flatten)).map List.length
      = IM_prods s := by
    rw [List.map_map]
    unfold IM_prods
    apply List.map_congr_left
    intro g hg
    exact hblock g (List.mem_range.mp hg)
  have hspeclen : (specY0 s).length = (IM_prods s).sum := by
    unfold specY0
    rw [List.length_flatten, hblocksmap]
  have hbtake : ∀ i, i ≤ s.IMs.length →
      dBoundAt s i = ((IM_prods s).take i).sum := by
    intro i hi
    exact dBoundAt_take s i (by omega)
  refine ⟨simulate_y0_eq s hne, hspeclen, rfl, ?_, ?_, ?_, ?_⟩
  · intro i hi
    rw [hbtake i (by omega), hbtake (i + 1) (by omega),
      sum_take_succ_nat (IM_prods s) i (by omega)]
    congr 1
    unfold IM_prods
    rw [getD_map_range]
    rw [if_pos hi]
  · rw [hbtake s.IMs.length (by omega), ← hplen, List.take_length]
  · intro i hi
    have hslice := flatten_drop_take ((List.range s.IMs.length).map (fun g =>
      ((s.IM_cells.getD g []).map (fun cid =>
        (s.cells.getD cid Cell.init).IC.getD [])).flatten)) i
      (by simpa using hi)
    have hgetD : ((List.range s.IMs.length).map (fun g =>
        ((s.IM_cells.getD g []).map (fun cid =>
          (s.cells.getD cid Cell.init).IC.getD [])).flatten)).getD i []
        = ((s.IM_cells.getD i []).map (fun cid =>
          (s.cells.getD cid Cell.init).IC.getD [])).flatten := by
      rw [getD_map_range]
      rw [if_pos hi]
    rw [hgetD] at hslice
    rw [List.map_take, hblocksmap] at hslice
    rw [hblock i hi] at hslice
    unfold specY0
    rw [hbtake i (by omega)]
    exact hslice
  · intro fuel y h d hok
    unfold derivH at hok
    cases hgl : groupLoop fuel s (List.range s.IMs.length) [y] with
    | error e => simp only [hgl] at hok; cases hok
    | ok p =>
      simp only [hgl] at hok
      obtain ⟨-, hf2⟩ := groupLoop_spec fuel s _ [y] p.1 p.2 hgl
      have hMslen : p.2.length = s.IMs.length := by
        have := hf2.length_eq
        simpa using this.symm
      have hMne : p.2.map matFlatten ≠ [] := by
        intro hnil
        have h0 : p.2 = [] := by
          cases hp2 : p.2 with
          | nil => rfl
          | cons a as => rw [hp2] at hnil; simp at hnil
        apply hne
        apply List.eq_nil_of_length_eq_zero
        rw [← hMslen, h0]
        rfl
      rw [reduceAppend_ok hMne] at hok
      simp only [Except.ok.injEq, Prod.mk.injEq] at hok
      obtain ⟨-, rfl⟩ := hok
      rw [List.length_flatten, forall2_mat_len_sum s _ _ hf2]
      rfl

/-- Witness for the amended claim C1: on the two-group simulation
(two cells × two species, then one cell × one species), the flattened
initial state follows the group-major layout and the flat-state
bounds step by the block sizes. -/
theorem c1_witness :
    simulate_y0 sim1w = .ok (specY0 sim1w) ∧
      (specY0 sim1w).length = (IM_prods sim1w).sum ∧
      dBoundAt sim1w 1 = dBoundAt sim1w 0 +
        IM_ncellsAt sim1w 0 * IM_nspeciesAt sim1w 0 :=
  ⟨(c1_layout_amended sim1w (by decide) (by decide)).1,
    (c1_layout_amended sim1w (by decide) (by decide)).2.1,
    (c1_layout_amended sim1w (by decide) (by decide)).2.2.2.1 0 (by decide)⟩

end SimF
